import Mathlib

/-!
 # Verification of the alexandria-cli document-to-structure pipeline

Shallow embedding of the core logic of `src/utils/documentParser.ts`,
`src/utils/viewCreation.ts`, `src/utils/coverage.ts` and
`src/utils/validation.ts`.  Strings are modelled as `List Char` (JS strings
over the ASCII/BMP subset exercised here); the Node filesystem and the
`@principal-ai/alexandria-core-library` collaborators (MemoryPalace etc.)
are modelled as explicit capability parameters, following the external
interface description of the specification.
-/

namespace Alexandria

/-- JS strings are modelled as lists of characters. -/
abbrev Line := List Char

/-- Convert a Lean string literal to the `Line` model. -/
def str (s : String) : Line := s.toList

/-- `a.startsWith(b)` on the list model. -/
def startsWithL : Line → Line → Bool
  | _, [] => true
  | [], _ :: _ => false
  | c :: cs, p :: ps => c = p && startsWithL cs ps

/-- `a.endsWith(b)` on the list model. -/
def endsWithL (l p : Line) : Bool := startsWithL l.reverse p.reverse

/-- `String.prototype.trim` (whitespace at both ends removed; the inputs
exercised here are ASCII, where JS and `Char.isWhitespace` agree). -/
def trimL (l : Line) : Line :=
  ((l.dropWhile Char.isWhitespace).reverse.dropWhile Char.isWhitespace).reverse

/-- `String.prototype.toLowerCase` on the list model. -/
def toLowerL (l : Line) : Line := l.map Char.toLower

/-- `content.split('\n')`. -/
def splitLines : Line → List Line
  | [] => [[]]
  | c :: cs =>
    if c = '\n' then [] :: splitLines cs
    else
      match splitLines cs with
      | [] => [[c]]
      | l :: ls => (c :: l) :: ls

/-- A character matched by the regex class `\s` (ASCII fragment). -/
def isSpaceChar (c : Char) : Bool := c.isWhitespace

/-- A character matched by the bare-path regex class: ASCII letters, digits,
underscore, hyphen, slash, dot. -/
def isClassChar (c : Char) : Bool :=
  c.isAlpha || c.isDigit || c = '_' || c = '-' || c = '/' || c = '.'

/-- The recognised file extensions, in the order of the source alternation
`(ts|tsx|js|jsx|mjs|cjs|json|yaml|yml|md|txt|css|scss|html)`. -/
def extList : List Line :=
  [str "ts", str "tsx", str "js", str "jsx", str "mjs", str "cjs", str "json",
   str "yaml", str "yml", str "md", str "txt", str "css", str "scss", str "html"]

/-- Matching `X+\.(ts|tsx|…)` against a whole delimited run `r` (the run is
forced by the delimiter, so the regex succeeds iff `r` decomposes as
`stem ++ "." ++ ext` with a nonempty stem; the `i` flag makes the extension
match case-insensitive).  Returns the text captured by the extension group
(the last `ext.length` characters of `r`, original case). -/
def findExtSuffix (r : Line) : Option Line :=
  (extList.find? fun e =>
      endsWithL (toLowerL r) ('.' :: e) && decide (e.length + 2 ≤ r.length)).map
    fun e => r.drop (r.length - e.length)

/-!
 ## Regex scanners

Each of the four `filePatterns` of `extractStructureFromMarkdown` is embedded
as a `tryAt` function that attempts a match at the current position and
returns the pair of the first two capture groups together with the rest of
the line after the match, plus a driver that replays the JS
`while ((match = pattern.exec(line)) !== null)` loop: leftmost match, then
continue after the matched text, advancing one character on failure.
-/

/-- ``/`([^`]+\.(ext))`/gi``: a backtick, a nonempty run of non-backticks
ending in a dot and a recognised extension, a closing backtick.
Group 1 is the run, group 2 the extension. -/
def tryBacktick : Line → Option ((Line × Line) × Line)
  | '`' :: rest =>
    let content := rest.takeWhile (· ≠ '`')
    match rest.drop content.length with
    | '`' :: after =>
      match findExtSuffix content with
      | some e => some ((content, e), after)
      | none => none
    | _ => none
  | _ => none

/-- `/\*\*([^*]+\.(ext))\*\*/gi`: the bold-delimited variant.  Group 1 is
the run between the `**` pairs, group 2 the extension. -/
def tryBold : Line → Option ((Line × Line) × Line)
  | '*' :: '*' :: rest =>
    let content := rest.takeWhile (· ≠ '*')
    match rest.drop content.length with
    | '*' :: '*' :: after =>
      match findExtSuffix content with
      | some e => some ((content, e), after)
      | none => none
    | _ => none
  | _ => none

/-- `/\[([^\]]+)\]\(([^)]+\.(ext))\)/gi`: markdown link.  Group 1 is the
label, group 2 the link target (which must end in a recognised extension). -/
def tryLink : Line → Option ((Line × Line) × Line)
  | '[' :: rest =>
    let label := rest.takeWhile (· ≠ ']')
    if label.isEmpty then none
    else
      match rest.drop label.length with
      | ']' :: '(' :: rest2 =>
        let target := rest2.takeWhile (· ≠ ')')
        match rest2.drop target.length with
        | ')' :: after =>
          match findExtSuffix target with
          | some _ => some ((label, target), after)
          | none => none
        | _ => none
      | _ => none
  | _ => none

/-- The token part `(CLASS+\.(ext))(?:\s|$)` of the bare-path pattern, with
CLASS the class of `isClassChar`: a maximal run of class characters ending in a dot and a recognised
extension, followed by a whitespace character (consumed) or the end of the
line.  Group 1 is the token, group 2 the extension. -/
def tryBareToken (l : Line) : Option ((Line × Line) × Line) :=
  let tok := l.takeWhile isClassChar
  match findExtSuffix tok with
  | none => none
  | some e =>
    match l.drop tok.length with
    | [] => some ((tok, e), [])
    | c :: rest => if isSpaceChar c then some ((tok, e), rest) else none

/-- The `\s`-boundary alternative of `(?:^|\s)`: consume one whitespace
character, then match the token. -/
def tryBareAfterSpace : Line → Option ((Line × Line) × Line)
  | c :: rest => if isSpaceChar c then tryBareToken rest else none
  | [] => none

/-- `/(?:^|\s)(CLASS+\.(ext))(?:\s|$)/gi`: at the start of the
line the `^` alternative is tried first, then the `\s` alternative. -/
def tryBare (atStart : Bool) (l : Line) : Option ((Line × Line) × Line) :=
  if atStart then
    match tryBareToken l with
    | some r => some r
    | none => tryBareAfterSpace l
  else tryBareAfterSpace l

/-- Driver for a `g`-flagged `exec` loop: find the leftmost match at or
after the current position, emit its captures, continue after the matched
text; the fuel argument (initially the line length) bounds the recursion —
every successful match consumes at least one character. -/
def scanLine (tryAt : Bool → Line → Option ((Line × Line) × Line)) :
    Nat → Bool → Line → List (Line × Line)
  | 0, _, _ => []
  | _, _, [] => []
  | fuel + 1, atStart, c :: cs =>
    match tryAt atStart (c :: cs) with
    | some (caps, rest) => caps :: scanLine tryAt fuel false rest
    | none => scanLine tryAt fuel false cs

/-- All matches of all four `filePatterns` on one line, pattern by pattern
(the source iterates `for (const pattern of filePatterns)`), each match
contributing its `(match[1], match[2])` pair. -/
def lineMatches (line : Line) : List (Line × Line) :=
  scanLine (fun _ l => tryBacktick l) line.length true line ++
  scanLine (fun _ l => tryBold l) line.length true line ++
  scanLine (fun _ l => tryLink l) line.length true line ++
  scanLine tryBare line.length true line

/-- `path.join(repositoryPath, cleanPath)` for the simple relative shapes
exercised here (no `.`/`..` normalization). -/
def pathJoin (a b : Line) : Line :=
  if a.isEmpty then b
  else if endsWithL a (str "/") then a ++ b
  else a ++ '/' :: b

/-- The body of the match loop of `extractStructureFromMarkdown`
(lines 89–104 of `documentParser.ts`): for each match, the candidate is
`match[2] || match[1]`; candidates starting with `http` or `//` are
rejected; the candidate is trimmed; when a repository path is supplied, a
candidate whose joined path does not exist (per `fs.existsSync`, modelled
by `fsEx`) is dropped. -/
def keptCandidates (fsEx : Line → Bool) (repo? : Option Line) (line : Line) :
    List Line :=
  (lineMatches line).filterMap fun m =>
    let filePath := if m.2.isEmpty then m.1 else m.2
    if filePath.isEmpty ∨ startsWithL filePath (str "http") ∨
        startsWithL filePath (str "//") then none
    else
      let cleanPath := trimL filePath
      match repo? with
      | some rp => if fsEx (pathJoin rp cleanPath) then some cleanPath else none
      | none => some cleanPath

/-!
 ## The markdown structure parser (`extractStructureFromMarkdown`)
-/

/-- One cell of `referenceGroups` (`CodebaseViewFileCell`). -/
structure FileCell where
  coordinates : Nat × Nat
  files : List Line
  priority : Nat
  deriving DecidableEq, Repr

/-- The structure returned by `extractStructureFromMarkdown`. -/
structure ExtractedStructure where
  name : Line
  description : Line
  referenceGroups : List (Line × FileCell)
  rows : Nat
  cols : Nat
  deriving DecidableEq, Repr

/-- The mutable locals of the line loop of `extractStructureFromMarkdown`. -/
structure ParserState where
  name : Line
  description : Line
  inDescription : Bool
  currentSection : Line
  currentFiles : List Line
  sectionIndex : Nat
  maxRow : Nat
  maxCol : Nat
  groups : List (Line × FileCell)
  deriving DecidableEq, Repr

/-- The default title (`'Codebase View'`). -/
def placeholderName : Line := str "Codebase View"

/-- The default description. -/
def defaultDescription : Line := str "Codebase view extracted from documentation"

/-- Initial parser state (lines 24–34 of `documentParser.ts`). -/
def initState : ParserState :=
  ⟨placeholderName, [], false, [], [], 0, 0, 0, []⟩

/-- Assignment `referenceGroups[key] = value` on a JS object: an existing
key keeps its position and gets the new value, a new key is appended. -/
def upsert (g : List (Line × FileCell)) (k : Line) (v : FileCell) :
    List (Line × FileCell) :=
  if g.any (fun p => p.1 = k) then
    g.map fun p => if p.1 = k then (k, v) else p
  else g ++ [(k, v)]

/-- The section-flush block (shared by lines 57–67 and 116–126 of
`documentParser.ts`): compute the grid cell from `sectionIndex`, update the
tracked maxima, store the cell under the current section name. -/
def flushCurrent (st : ParserState) : ParserState :=
  let row := st.sectionIndex / 3
  let col := st.sectionIndex % 3
  { st with
    maxRow := max st.maxRow row
    maxCol := max st.maxCol col
    groups := upsert st.groups st.currentSection ⟨(row, col), st.currentFiles, 0⟩ }

/-- The mid-document flush additionally increments `sectionIndex`
(line 68); the final flush at end of input does not. -/
def flushBump (st : ParserState) : ParserState :=
  { flushCurrent st with sectionIndex := st.sectionIndex + 1 }

/-- `currentFiles` accumulation for one line (lines 89–111): each kept
candidate is appended unless already present. -/
def pushUnique (files : List Line) (c : Line) : List Line :=
  if c ∈ files then files else files ++ [c]

/-- One iteration of the line loop (lines 36–113 of `documentParser.ts`),
acting on the already-trimmed line. -/
def stepCore (fsEx : Line → Bool) (repo? : Option Line)
    (st : ParserState) (line : Line) : ParserState :=
  if startsWithL line (str "# ") ∧ st.name = placeholderName then
    { st with name := trimL (line.drop 2), inDescription := true }
  else
    let st1 :=
      if st.inDescription ∧ ¬line.isEmpty ∧ ¬startsWithL line (str "#") then
        { st with description :=
            if st.description.isEmpty then line
            else st.description ++ ' ' :: line }
      else if st.inDescription ∧ (startsWithL line (str "#") ∨ line.isEmpty) then
        { st with inDescription := false }
      else st
    if startsWithL line (str "## ") ∨ startsWithL line (str "### ") then
      let st2 :=
        if ¬st1.currentSection.isEmpty ∧ ¬st1.currentFiles.isEmpty then
          flushBump st1
        else st1
      { st2 with
        currentSection := trimL (line.dropWhile (· = '#'))
        currentFiles := [] }
    else
      { st1 with currentFiles :=
          (keptCandidates fsEx repo? line).foldl pushUnique st1.currentFiles }

/-- One iteration on the raw line: `const line = lines[i]?.trim() || ''`. -/
def stepLine (fsEx : Line → Bool) (repo? : Option Line)
    (st : ParserState) (rawLine : Line) : ParserState :=
  stepCore fsEx repo? st (trimL rawLine)

/-- The parser state after the line loop, before the final flush. -/
def parsePre (fsEx : Line → Bool) (content : Line) (repo? : Option Line) :
    ParserState :=
  (splitLines content).foldl (stepLine fsEx repo?) initState

/-- The parser state after the conditional final flush (lines 116–127). -/
def parseFinal (fsEx : Line → Bool) (content : Line) (repo? : Option Line) :
    ParserState :=
  let st := parsePre fsEx content repo?
  if ¬st.currentSection.isEmpty ∧ ¬st.currentFiles.isEmpty then flushCurrent st
  else st

/-- The number of sections flushed over the whole document (mid-document
flushes are counted by `sectionIndex`; the final flush is counted by its
guard). -/
def flushTotal (fsEx : Line → Bool) (content : Line) (repo? : Option Line) :
    Nat :=
  let st := parsePre fsEx content repo?
  st.sectionIndex +
    if ¬st.currentSection.isEmpty ∧ ¬st.currentFiles.isEmpty then 1 else 0

/-- `extractStructureFromMarkdown(content, repositoryPath?)`, with the
filesystem existence check `fs.existsSync` passed explicitly as `fsEx`. -/
def extractStructureFromMarkdown (fsEx : Line → Bool) (content : Line)
    (repo? : Option Line) : ExtractedStructure :=
  let st := parseFinal fsEx content repo?
  { name := if st.name.isEmpty then placeholderName else st.name
    description :=
      if st.description.isEmpty then defaultDescription else st.description
    referenceGroups := st.groups
    rows := if 0 < st.groups.length then st.maxRow + 1 else 1
    cols := if 0 < st.groups.length then min (st.maxCol + 1) 3 else 1 }

/-!
 ## Specification-side definitions

These definitions follow the wording of the specification and are compared
with the source-derived definitions above by the theorems below.
-/

/-- Keep-first deduplication: every element appears exactly once, at the
position of its first occurrence ("ordered, duplicate-free sequence,
first-seen order preserved"). -/
def firstSeen : List Line → List Line
  | [] => []
  | c :: cs => c :: firstSeen (cs.filter fun d => decide (d ≠ c))
  termination_by l => l.length
  decreasing_by
    simp only [List.length_cons]
    exact Nat.lt_succ_of_le (List.length_filter_le _ _)

/-- Raw-accumulation variant of the line-loop iteration: identical to
`stepCore` except that every kept candidate is appended to `currentFiles`
without duplicate suppression.  Used to state that the parser's file lists
are exactly the keep-first deduplication of the discovered candidate
stream. -/
def stepCoreRaw (fsEx : Line → Bool) (repo? : Option Line)
    (st : ParserState) (line : Line) : ParserState :=
  if startsWithL line (str "# ") ∧ st.name = placeholderName then
    { st with name := trimL (line.drop 2), inDescription := true }
  else
    let st1 :=
      if st.inDescription ∧ ¬line.isEmpty ∧ ¬startsWithL line (str "#") then
        { st with description :=
            if st.description.isEmpty then line
            else st.description ++ ' ' :: line }
      else if st.inDescription ∧ (startsWithL line (str "#") ∨ line.isEmpty) then
        { st with inDescription := false }
      else st
    if startsWithL line (str "## ") ∨ startsWithL line (str "### ") then
      let st2 :=
        if ¬st1.currentSection.isEmpty ∧ ¬st1.currentFiles.isEmpty then
          flushBump st1
        else st1
      { st2 with
        currentSection := trimL (line.dropWhile (· = '#'))
        currentFiles := [] }
    else
      { st1 with currentFiles :=
          st1.currentFiles ++ keptCandidates fsEx repo? line }

/-- Raw-accumulation parser state after the line loop. -/
def parsePreRaw (fsEx : Line → Bool) (content : Line) (repo? : Option Line) :
    ParserState :=
  (splitLines content).foldl
    (fun st raw => stepCoreRaw fsEx repo? st (trimL raw)) initState

/-- Raw-accumulation parser state after the conditional final flush. -/
def parseFinalRaw (fsEx : Line → Bool) (content : Line) (repo? : Option Line) :
    ParserState :=
  let st := parsePreRaw fsEx content repo?
  if ¬st.currentSection.isEmpty ∧ ¬st.currentFiles.isEmpty then flushCurrent st
  else st

/-- Raw-accumulation variant of the whole extraction. -/
def extractRaw (fsEx : Line → Bool) (content : Line) (repo? : Option Line) :
    ExtractedStructure :=
  let st := parseFinalRaw fsEx content repo?
  { name := if st.name.isEmpty then placeholderName else st.name
    description :=
      if st.description.isEmpty then defaultDescription else st.description
    referenceGroups := st.groups
    rows := if 0 < st.groups.length then st.maxRow + 1 else 1
    cols := if 0 < st.groups.length then min (st.maxCol + 1) 3 else 1 }

/-- Apply keep-first deduplication to the file list of every group. -/
def dedupGroups (g : List (Line × FileCell)) : List (Line × FileCell) :=
  g.map fun p => (p.1, ⟨p.2.coordinates, firstSeen p.2.files, p.2.priority⟩)

/-- The title candidate carried by one (trimmed) line: the trimmed heading
text of a level-1 heading, provided it differs from the placeholder. -/
def titleCandidate (l : Line) : Option Line :=
  if startsWithL l (str "# ") ∧ trimL (l.drop 2) ≠ placeholderName then
    some (trimL (l.drop 2))
  else none

/-- Title per the (amended) specification: the trimmed heading text of the
first level-1 heading line whose trimmed text differs from the placeholder;
the placeholder if there is no such line (or the captured text is empty). -/
def titleSpec (content : Line) : Line :=
  let t := (((splitLines content).map trimL).findSome? titleCandidate).getD
    placeholderName
  if t.isEmpty then placeholderName else t

/-- A line captured into the description: non-empty and not a heading. -/
def descLine (l : Line) : Bool := ¬l.isEmpty ∧ ¬startsWithL l (str "#")

/-- Space-joined concatenation of a sequence of lines. -/
def joinSpace : List Line → Line
  | [] => []
  | [l] => l
  | l :: ls => l ++ ' ' :: joinSpace ls

/-- The parser's incremental description accumulation (`if (description)
description += ' '; description += line`), as a fold. -/
def joinAcc (d : Line) (ls : List Line) : Line :=
  ls.foldl (fun d l => if d.isEmpty then l else d ++ ' ' :: l) d

/-- Description per the specification: the space-joined consecutive
non-empty, non-heading lines immediately following the first level-1
heading (capture ends at the first heading line or blank line). -/
def descSpec (content : Line) : Line :=
  let ls := (splitLines content).map trimL
  let rest := (ls.dropWhile fun l => ¬startsWithL l (str "# ")).drop 1
  joinSpace (rest.takeWhile descLine)

/-- Decidable form of "the document's first level-1 heading exists and its
trimmed text differs from the placeholder". -/
def firstTitleNotPlaceholder (content : Line) : Bool :=
  match ((splitLines content).map trimL).find?
      (fun l => startsWithL l (str "# ")) with
  | some l => trimL (l.drop 2) ≠ placeholderName
  | none => false

/-!
 ## View creation (`viewCreation.ts`)

`MemoryPalace`, `NodeFileSystemAdapter` and the Node filesystem are external
collaborators; they are modelled as a capability record `ViewEnv`
(`Except.error` models a thrown exception).
-/

/-- `path.basename(p)` for the repository-relative POSIX paths used here. -/
def baseNameL (l : Line) : Line := (l.reverse.takeWhile (· ≠ '/')).reverse

/-- `path.dirname(p)` for the repository-relative POSIX paths used here. -/
def dirNameL (l : Line) : Line :=
  if (baseNameL l).length = l.length then str "."
  else l.take (l.length - (baseNameL l).length - 1)

/-- `path.extname(p)`: from the last dot of the basename, empty when there
is no dot or the only dot is the leading character. -/
def extNameL (l : Line) : Line :=
  let b := baseNameL l
  let tail := b.reverse.takeWhile (· ≠ '.')
  if tail.length = b.length then []
  else if tail.length + 1 = b.length then []
  else '.' :: tail.reverse

/-- `path.basename(p, ext)`: the basename with `ext` removed when it is a
proper suffix. -/
def baseNameNoExtL (l : Line) : Line :=
  let b := baseNameL l
  let e := extNameL l
  if ¬e.isEmpty ∧ endsWithL b e ∧ e.length < b.length then
    b.take (b.length - e.length)
  else b

/-- A character of the regex class `\w` used by the Title-Case step. -/
def isWordChar (c : Char) : Bool := c.isAlpha || c.isDigit || c = '_'

/-- `replace(/\b\w/g, l => l.toUpperCase())`: uppercase every word
character that starts a word (`prevWord` tracks whether the previous
character was a word character). -/
def upWordStarts : Line → Bool → Line
  | [], _ => []
  | c :: cs, prevWord =>
    (if isWordChar c ∧ ¬prevWord then c.toUpper else c) ::
      upWordStarts cs (isWordChar c)

/-- `generateViewNameFromPath` (lines 91–104 of `viewCreation.ts`). -/
def generateViewNameFromPath (filePath : Line) : Line :=
  let fileName := baseNameNoExtL filePath
  let dirName := dirNameL filePath
  if dirName = str "." then
    upWordStarts (fileName.map fun c => if c = '-' ∨ c = '_' then ' ' else c)
      false
  else
    let formattedDir := upWordStarts
      (dirName.map fun c => if c = '-' ∨ c = '_' ∨ c = '/' then ' ' else c)
      false
    let formattedFile := upWordStarts
      (fileName.map fun c => if c = '-' ∨ c = '_' then ' ' else c) false
    formattedDir ++ str " - " ++ formattedFile

/-- JS `a || b` for an optional string `a` (absent or empty falls back). -/
def jsOr (a : Option Line) (b : Line) : Line :=
  match a with
  | some v => if v.isEmpty then b else v
  | none => b

/-- `UntrackedDocumentInfo`. -/
structure UntrackedDocumentInfo where
  filePath : Line
  relativePath : Line
  fullPath : Line
  deriving DecidableEq, Repr

/-- The `metadata.ui` block built by `createViewFromDocument`. -/
structure ViewUIMeta where
  enabled : Bool
  rows : Nat
  cols : Nat
  showCellLabels : Bool
  cellLabelPosition : Line
  deriving DecidableEq, Repr

/-- The `metadata` block built by `createViewFromDocument`. -/
structure ViewMetadata where
  generationType : Line
  ui : ViewUIMeta
  deriving DecidableEq, Repr

/-- `CodebaseView` (the fields assembled by `createViewFromDocument`). -/
structure CodebaseView where
  id : Line
  version : Line
  name : Line
  description : Line
  rows : Nat
  cols : Nat
  referenceGroups : List (Line × FileCell)
  overviewPath : Line
  category : Line
  displayOrder : Nat
  timestamp : Line
  metadata : ViewMetadata
  deriving DecidableEq, Repr

/-- `ViewCreationResult`. -/
structure ViewCreationResult where
  file : Line
  success : Bool
  viewName : Option Line := none
  viewId : Option Line := none
  error : Option Line := none
  issues : Option Nat := none
  view : Option CodebaseView := none
  deriving DecidableEq, Repr

/-- `ViewCreationOptions`. -/
structure ViewCreationOptions where
  category : Option Line := none
  skipValidation : Bool := false
  dryRun : Bool := false
  name : Option Line := none
  description : Option Line := none
  deriving DecidableEq, Repr

/-- Result of `palace.saveViewWithValidation`. -/
structure SaveValidationOutcome where
  issues : List Line
  validatedView : CodebaseView
  deriving DecidableEq, Repr

/-- The external collaborators of `createViewFromDocument`:
`MemoryPalace.validateRelativePath` (throws on a path outside the
repository), `fileSystemAdapter.exists` / `fs.existsSync`,
`fs.readFileSync`, `generateViewIdFromName`, `palace.saveView`,
`palace.saveViewWithValidation`, and `new Date().toISOString()`. -/
structure ViewEnv where
  validateRelativePath : Line → Except Line Line
  fsExists : Line → Bool
  readFile : Line → Except Line Line
  generateViewIdFromName : Line → Line
  saveView : CodebaseView → Except Line Unit
  saveViewWithValidation : CodebaseView → Except Line SaveValidationOutcome
  nowTimestamp : Line

/-- `createViewFromDocument` (lines 109–233 of `viewCreation.ts`): every
thrown exception of a collaborator is caught and reported as a
`success = false` result. -/
def createViewFromDocument (env : ViewEnv) (repositoryPath : Line)
    (docInfo : UntrackedDocumentInfo) (options : ViewCreationOptions) :
    ViewCreationResult :=
  let category := jsOr options.category (str "docs")
  match env.validateRelativePath docInfo.fullPath with
  | Except.error _ =>
    { file := docInfo.filePath, success := false
      error := some (str "File must be within repository") }
  | Except.ok relativePath =>
    if ¬env.fsExists docInfo.fullPath then
      { file := docInfo.filePath, success := false
        error := some (str "File not found") }
    else
      match env.readFile docInfo.fullPath with
      | Except.error e =>
        { file := docInfo.filePath, success := false
          error := some (str "Cannot read file: " ++ e) }
      | Except.ok docContent =>
        let extracted :=
          extractStructureFromMarkdown env.fsExists docContent
            (some repositoryPath)
        let viewName0 := jsOr options.name extracted.name
        let viewName :=
          if viewName0 = placeholderName ∨ viewName0.isEmpty then
            generateViewNameFromPath docInfo.filePath
          else viewName0
        let description := jsOr options.description
          (jsOr (some extracted.description)
            (str "Documentation-based view for " ++ docInfo.filePath))
        let view : CodebaseView :=
          { id := env.generateViewIdFromName viewName
            version := str "1.0.0"
            name := viewName
            description := description
            rows := if extracted.rows = 0 then 1 else extracted.rows
            cols := if extracted.cols = 0 then 1 else extracted.cols
            referenceGroups := extracted.referenceGroups
            overviewPath := relativePath
            category := category
            displayOrder := 0
            timestamp := env.nowTimestamp
            metadata :=
              { generationType := str "user"
                ui :=
                  { enabled := true
                    rows := if extracted.rows = 0 then 1 else extracted.rows
                    cols := if extracted.cols = 0 then 1 else extracted.cols
                    showCellLabels := true
                    cellLabelPosition := str "top" } } }
        if options.dryRun then
          { file := docInfo.filePath, success := true
            viewName := some viewName, viewId := some view.id
            view := some view }
        else if options.skipValidation then
          match env.saveView view with
          | Except.ok _ =>
            { file := docInfo.filePath, success := true
              viewName := some viewName, viewId := some view.id
              view := some view }
          | Except.error e =>
            { file := docInfo.filePath, success := false, error := some e }
        else
          match env.saveViewWithValidation view with
          | Except.ok validationResult =>
            { file := docInfo.filePath, success := true
              viewName := some viewName, viewId := some view.id
              issues := some validationResult.issues.length
              view := some validationResult.validatedView }
          | Except.error e =>
            { file := docInfo.filePath, success := false, error := some e }

/-- `createViewsFromDocuments` (lines 238–251): sequential accumulation of
one result per input document. -/
def createViewsFromDocuments (env : ViewEnv) (repositoryPath : Line)
    (documents : List UntrackedDocumentInfo)
    (options : ViewCreationOptions) : List ViewCreationResult :=
  documents.map fun docInfo =>
    createViewFromDocument env repositoryPath docInfo options

/-- Name resolution per the (amended) specification: the caller-supplied
name when provided and non-empty, else the extracted title; the resolved
name is replaced by the path-derived name when it equals the placeholder or
is empty. -/
def resolveNameSpec (optName : Option Line) (extractedTitle : Line)
    (filePath : Line) : Line :=
  let chosen := jsOr optName extractedTitle
  if chosen = placeholderName ∨ chosen.isEmpty then
    generateViewNameFromPath filePath
  else chosen

/-!
 ## Coverage metrics (`coverage.ts`)

`calculateCoverageMetrics` is a pure function of the two file sets; JS
`Set`s are modelled as lists in insertion order, and the floating-point
percentage is modelled with exact rationals.
-/

/-- Lexicographic comparison of code units, the default JS array sort
order for strings (ASCII fragment). -/
def lexLe : Line → Line → Bool
  | [], _ => true
  | _ :: _, [] => false
  | a :: as, b :: bs =>
    if a.toNat < b.toNat then true
    else if b.toNat < a.toNat then false
    else lexLe as bs

/-- Insertion into a sorted list. -/
def insertSorted (a : Line) : List Line → List Line
  | [] => [a]
  | b :: bs => if lexLe a b then a :: b :: bs else b :: insertSorted a bs

/-- `Array.prototype.sort()` on a list of strings. -/
def sortLines (l : List Line) : List Line := l.foldr insertSorted []

/-- `path.extname(file).toLowerCase() || 'no-ext'`. -/
def extKey (file : Line) : Line :=
  let e := toLowerL (extNameL file)
  if e.isEmpty then str "no-ext" else e

/-- The per-extension statistics map, as an association list in key
insertion order (models the JS `Map`). -/
def bumpExt (m : List (Line × Nat × Nat)) (ext : Line) (covered : Bool) :
    List (Line × Nat × Nat) :=
  if m.any (fun p => p.1 = ext) then
    m.map fun p =>
      if p.1 = ext then (p.1, p.2.1 + 1, if covered then p.2.2 + 1 else p.2.2)
      else p
  else m ++ [(ext, 1, if covered then 1 else 0)]

/-- `CoverageMetrics`. -/
structure CoverageMetrics where
  totalFiles : Nat
  coveredFiles : Nat
  coveredFilesList : List Line
  uncoveredFiles : List Line
  coveragePercentage : ℚ
  filesByExtension : List (Line × Nat × Nat)
  deriving DecidableEq, Repr

/-- `calculateCoverageMetrics(sourceFiles, referencedFiles)`
(lines 142–182 of `coverage.ts`). -/
def calculateCoverageMetrics (sourceFiles referencedFiles : List Line) :
    CoverageMetrics :=
  let acc := sourceFiles.foldl
    (fun (acc : List Line × List Line × List (Line × Nat × Nat)) file =>
      let (covered, uncovered, m) := acc
      let m := bumpExt m (extKey file) (file ∈ referencedFiles)
      if file ∈ referencedFiles then (covered ++ [file], uncovered, m)
      else (covered, uncovered ++ [file], m))
    ([], [], [])
  let coveredFilesList := sortLines acc.1
  let uncoveredFiles := sortLines acc.2.1
  let totalFiles := sourceFiles.length
  let coveredFiles := coveredFilesList.length
  { totalFiles := totalFiles
    coveredFiles := coveredFiles
    coveredFilesList := coveredFilesList
    uncoveredFiles := uncoveredFiles
    coveragePercentage :=
      if 0 < totalFiles then ((coveredFiles : ℚ) / (totalFiles : ℚ)) * 100
      else 100
    filesByExtension := acc.2.2 }

/-!
 ## View validation (`validation.ts`)

`palace.listViews` and `palace.validateView` come from the core library;
they are modelled as a capability record, `Except.error` modelling a
thrown exception.
-/

/-- Per-severity issue counts of a `CodebaseValidationResult.summary`. -/
structure SeverityCounts where
  errors : Nat
  warnings : Nat
  info : Nat
  deriving DecidableEq, Repr

/-- `CodebaseValidationResult` (issues are abstract payloads; only their
count is used by `validateAllViews`). -/
structure CodebaseValidationResult where
  isValid : Bool
  issues : List Line
  validatedView : CodebaseView
  summary : SeverityCounts
  deriving DecidableEq, Repr

/-- `ViewValidationResult`. -/
structure ViewValidationResult where
  viewId : Line
  viewName : Line
  success : Bool
  validationResult : CodebaseValidationResult
  error : Option Line := none
  deriving DecidableEq, Repr

/-- `ValidationSummary`. -/
structure ValidationSummary where
  totalViews : Nat
  validViews : Nat
  invalidViews : Nat
  totalIssues : Nat
  errorCount : Nat
  warningCount : Nat
  infoCount : Nat
  results : List ViewValidationResult
  deriving DecidableEq, Repr

/-- The collaborators of `validateAllViews`. -/
structure ValidationEnv where
  listViews : List CodebaseView
  validateView : CodebaseView → Except Line CodebaseValidationResult

/-- The per-view try/catch body of the loop of `validateAllViews`
(lines 39–63 of `validation.ts`). -/
def viewResult (env : ValidationEnv) (view : CodebaseView) :
    ViewValidationResult :=
  match env.validateView view with
  | Except.ok validationResult =>
    { viewId := view.id, viewName := view.name
      success := validationResult.isValid
      validationResult := validationResult }
  | Except.error e =>
    { viewId := view.id, viewName := view.name
      success := false
      validationResult :=
        { isValid := false, issues := [], validatedView := view
          summary := ⟨1, 0, 0⟩ }
      error := some e }

/-- `validateAllViews` (lines 32–92 of `validation.ts`). -/
def validateAllViews (env : ValidationEnv) : ValidationSummary :=
  let results := env.listViews.map (viewResult env)
  let validViews := (results.filter fun r => r.success).length
  let invalidViews := (results.filter fun r => !r.success).length
  { totalViews := results.length
    validViews := validViews
    invalidViews := invalidViews
    totalIssues :=
      results.foldl (fun acc r => acc + r.validationResult.issues.length) 0
    errorCount :=
      results.foldl (fun acc r => acc + r.validationResult.summary.errors) 0
    warningCount :=
      results.foldl (fun acc r => acc + r.validationResult.summary.warnings) 0
    infoCount :=
      results.foldl (fun acc r => acc + r.validationResult.summary.info) 0
    results := results }

/-!
 ## Invariants and relations used in proofs
-/

/-- The closed forms of the tracked maxima in terms of the flush count. -/
def gridMaxInv (st : ParserState) : Prop :=
  st.maxRow = (if st.sectionIndex = 0 then 0 else (st.sectionIndex - 1) / 3) ∧
  st.maxCol = (if st.sectionIndex = 0 then 0 else min (st.sectionIndex - 1) 2)

/-- The group list is never longer than the flush count, and when it has
full length the i-th entry carries the i-th grid cell. -/
def gridCoordInv (st : ParserState) : Prop :=
  st.groups.length ≤ st.sectionIndex ∧
  (st.groups.length = st.sectionIndex →
    st.groups.map (fun p => p.2.coordinates) =
      (List.range st.sectionIndex).map (fun i => (i / 3, i % 3)))

/-- The condition of the title-capture branch. -/
@[reducible] def isTitleLine (st : ParserState) (l : Line) : Prop :=
  startsWithL l (str "# ") = true ∧ st.name = placeholderName

/-- The condition of the section-heading branch. -/
@[reducible] def isSectionLine (l : Line) : Prop :=
  startsWithL l (str "## ") = true ∨ startsWithL l (str "### ") = true

/-- The guard of a section flush. -/
@[reducible] def flushGuard (st : ParserState) : Prop :=
  ¬st.currentSection.isEmpty = true ∧ ¬st.currentFiles.isEmpty = true

/-- Simulation relation between the deduplicating parser state and the
raw-accumulation parser state: all components agree except that the file
accumulators of the former are the keep-first deduplications of those of
the latter. -/
def relState (st sr : ParserState) : Prop :=
  st.name = sr.name ∧ st.description = sr.description ∧
  st.inDescription = sr.inDescription ∧
  st.currentSection = sr.currentSection ∧
  st.currentFiles = firstSeen sr.currentFiles ∧
  st.sectionIndex = sr.sectionIndex ∧
  st.maxRow = sr.maxRow ∧ st.maxCol = sr.maxCol ∧
  st.groups = dedupGroups sr.groups

/-!
 ## Concrete fixtures used by witnesses and counterexamples
-/

/-- A document whose single section repeats one file reference across
patterns and lines. -/
def docDup : Line :=
  str "## A\n[x](a.ts) [y](b.ts) [z](a.ts)\n[w](a.ts) [v](c.ts)"

/-- A minimal concrete view used by validation witnesses. -/
def viewW1 : CodebaseView :=
  { id := str "v1", version := str "1.0.0", name := str "View One"
    description := str "d", rows := 1, cols := 1, referenceGroups := []
    overviewPath := str "a.md", category := str "docs", displayOrder := 0
    timestamp := str "t"
    metadata := ⟨str "user", ⟨true, 1, 1, true, str "top"⟩⟩ }

/-- A second concrete view whose validation throws in the witness
environment. -/
def viewW2 : CodebaseView := { viewW1 with id := str "v2", name := str "View Two" }

/-- A validation environment with one passing view and one view whose
`validateView` call throws. -/
def valEnvW : ValidationEnv :=
  { listViews := [viewW1, viewW2]
    validateView := fun v =>
      if v.id = str "v1" then Except.ok ⟨true, [], v, ⟨0, 0, 0⟩⟩
      else Except.error (str "boom") }

/-- Documents used by the batch-creation witness. -/
def docA : UntrackedDocumentInfo := ⟨str "a.md", str "a.md", str "A"⟩

/-- Second witness document; its read fails in `viewEnvW`. -/
def docB : UntrackedDocumentInfo := ⟨str "b.md", str "b.md", str "B"⟩

/-- Third witness document. -/
def docC : UntrackedDocumentInfo := ⟨str "c.md", str "c.md", str "C"⟩

/-- A view-creation environment in which every path validates and exists,
but reading the file `B` throws an I/O error. -/
def viewEnvW : ViewEnv :=
  { validateRelativePath := fun p => Except.ok p
    fsExists := fun _ => true
    readFile := fun p =>
      if p = str "B" then Except.error (str "io") else Except.ok (str "# T")
    generateViewIdFromName := fun n => n
    saveView := fun _ => Except.ok ()
    saveViewWithValidation := fun v => Except.ok ⟨[], v⟩
    nowTimestamp := str "now" }

/-- Dry-run options. -/
def optsDry : ViewCreationOptions := { dryRun := true }

/-- A view-creation environment for the name-resolution claim: every call
succeeds and the document content carries the title `My Title`. -/
def viewEnvName : ViewEnv :=
  { viewEnvW with
    readFile := fun _ => Except.ok (str "# My Title\nSome description.") }

/-- The document for the name-resolution claim. -/
def docNamed : UntrackedDocumentInfo :=
  ⟨str "docs/my-view.md", str "docs/my-view.md", str "R/docs/my-view.md"⟩

/-- A document with exactly seven section headings, each containing one
recognised (markdown-link) file reference. -/
def doc7 : Line := str
  "# Seven\n\n## S1\n[a](f1.ts)\n## S2\n[a](f2.ts)\n## S3\n[a](f3.ts)\n## S4\n[a](f4.ts)\n## S5\n[a](f5.ts)\n## S6\n[a](f6.ts)\n## S7\n[a](f7.ts)"

/-- A document whose middle section has no recognisable file reference. -/
def docSkip : Line := str "## A\n[x](a.ts)\n## B\nnothing\n## C\n[y](c.ts)"

/-- A document with no section headings at all. -/
def docPlain : Line := str "just some prose\nwith no headings"

/-- The concrete markdown document of the specification's testable
scenario (§8). -/
def sec8doc : Line := str
  "# My View\nIntro paragraph.\n\n## Section A\nSee `src/a.ts` and `src/b.ts`.\n\n## Section B\nNothing here."

/-!
 ## Supporting lemmas
-/

theorem length_insertSorted (a : Line) (l : List Line) :
    (insertSorted a l).length = l.length + 1 := by
  induction l with
  | nil => rfl
  | cons b bs ih =>
    unfold insertSorted
    split
    · simp
    · simp [ih]

theorem length_sortLines (l : List Line) :
    (sortLines l).length = l.length := by
  unfold sortLines
  induction l with
  | nil => rfl
  | cons a as ih => simp [List.foldr_cons, length_insertSorted, ih]

theorem coverage_fold_components (ref : List Line) (src : List Line) :
    ∀ (c u : List Line) (m : List (Line × Nat × Nat)),
      (src.foldl
        (fun (acc : List Line × List Line × List (Line × Nat × Nat)) file =>
          let (covered, uncovered, m) := acc
          let m := bumpExt m (extKey file) (file ∈ ref)
          if file ∈ ref then (covered ++ [file], uncovered, m)
          else (covered, uncovered ++ [file], m))
        (c, u, m)).1 = c ++ src.filter (fun f => decide (f ∈ ref)) := by
  induction src with
  | nil => intro c u m; simp
  | cons f fs ih =>
    intro c u m
    by_cases h : f ∈ ref
    · simp [List.filter_cons, h, ih]
    · simp [List.filter_cons, h, ih]

/-- C8 helper: the covered-file list of `calculateCoverageMetrics` is the
sorted filter of the source universe by membership in the referenced
universe. -/
theorem coveredFilesList_eq (src ref : List Line) :
    (calculateCoverageMetrics src ref).coveredFilesList =
      sortLines (src.filter fun f => decide (f ∈ ref)) := by
  unfold calculateCoverageMetrics
  simp only [coverage_fold_components ref src [] [] [], List.nil_append]

/-- C8.  `calculateCoverageMetrics` reports `totalFiles` as the size of the
source universe, `coveredFiles` as the number of source files present in
the referenced universe, and a percentage of `covered / total × 100` for a
non-empty universe and exactly `100` for an empty one. -/
theorem calculateCoverageMetrics_spec (src ref : List Line) :
    (calculateCoverageMetrics src ref).totalFiles = src.length ∧
    (calculateCoverageMetrics src ref).coveredFiles =
      (src.filter fun f => decide (f ∈ ref)).length ∧
    (0 < (calculateCoverageMetrics src ref).totalFiles →
      (calculateCoverageMetrics src ref).coveragePercentage =
        (((calculateCoverageMetrics src ref).coveredFiles : ℚ) /
          ((calculateCoverageMetrics src ref).totalFiles : ℚ)) * 100) ∧
    (src = [] →
      (calculateCoverageMetrics src ref).totalFiles = 0 ∧
      (calculateCoverageMetrics src ref).coveragePercentage = 100) := by
  refine ⟨rfl, ?_, ?_, ?_⟩
  · have h := coveredFilesList_eq src ref
    show (calculateCoverageMetrics src ref).coveredFilesList.length = _
    rw [h, length_sortLines]
  · intro h
    show (if 0 < src.length then _ else _) = _
    have hs : 0 < src.length := h
    rw [if_pos hs]
    rfl
  · rintro rfl
    exact ⟨rfl, rfl⟩

/-- C8 witness: a two-file universe with one covered file has coverage
`50`, and the empty universe has coverage `100` with `totalFiles = 0`. -/
theorem calculateCoverageMetrics_spec_witness :
    (0 < (calculateCoverageMetrics [str "a.ts", str "b.ts"] [str "a.ts"]).totalFiles ∧
      (calculateCoverageMetrics [str "a.ts", str "b.ts"] [str "a.ts"]).coveragePercentage =
        (((calculateCoverageMetrics [str "a.ts", str "b.ts"] [str "a.ts"]).coveredFiles : ℚ) /
          ((calculateCoverageMetrics [str "a.ts", str "b.ts"] [str "a.ts"]).totalFiles : ℚ)) * 100) ∧
    (calculateCoverageMetrics [str "a.ts", str "b.ts"] [str "a.ts"]).coveragePercentage = 50 ∧
    (calculateCoverageMetrics ([] : List Line) [str "a.ts"]).totalFiles = 0 ∧
    (calculateCoverageMetrics ([] : List Line) [str "a.ts"]).coveragePercentage = 100 := by
  refine ⟨⟨by decide, (calculateCoverageMetrics_spec [str "a.ts", str "b.ts"] [str "a.ts"]).2.2.1 (by decide)⟩, ?_, ?_, ?_⟩
  · have h := (calculateCoverageMetrics_spec [str "a.ts", str "b.ts"]
      [str "a.ts"]).2.2.1 (by decide)
    have hc : (calculateCoverageMetrics [str "a.ts", str "b.ts"]
      [str "a.ts"]).coveredFiles = 1 := by decide
    have ht : (calculateCoverageMetrics [str "a.ts", str "b.ts"]
      [str "a.ts"]).totalFiles = 2 := by decide
    rw [h, hc, ht]
    norm_num
  · exact ((calculateCoverageMetrics_spec [] [str "a.ts"]).2.2.2 rfl).1
  · exact ((calculateCoverageMetrics_spec [] [str "a.ts"]).2.2.2 rfl).2

/-- C10.  The summary of `validateAllViews` counts one result per stored
view, partitions them exactly into valid and invalid
(`totalViews = validViews + invalidViews`), and a per-view validation
exception surfaces as a tagged `success = false` result whose summary
counts exactly one error, never as a propagated exception. -/
theorem validateAllViews_summary_spec (env : ValidationEnv) :
    (validateAllViews env).totalViews = (validateAllViews env).results.length ∧
    (validateAllViews env).results.length = env.listViews.length ∧
    (validateAllViews env).validViews =
      ((validateAllViews env).results.filter fun r => r.success).length ∧
    (validateAllViews env).invalidViews =
      ((validateAllViews env).results.filter fun r => !r.success).length ∧
    (validateAllViews env).totalViews =
      (validateAllViews env).validViews + (validateAllViews env).invalidViews ∧
    (∀ i : Nat, (validateAllViews env).results[i]? =
      (env.listViews[i]?).map (viewResult env)) ∧
    (∀ v e, env.validateView v = Except.error e →
      viewResult env v =
        { viewId := v.id, viewName := v.name, success := false
          validationResult :=
            { isValid := false, issues := [], validatedView := v
              summary := ⟨1, 0, 0⟩ }
          error := some e }) := by
  refine ⟨rfl, by simp [validateAllViews], rfl, rfl, ?_, ?_, ?_⟩
  · exact List.length_eq_length_filter_add
      (fun r : ViewValidationResult => r.success)
  · intro i
    simp [validateAllViews]
  · intro v e h
    unfold viewResult
    rw [h]

/-- C10 witness: a concrete store with one passing view and one view whose
validation throws: the totals partition and the throwing view's tagged
failure result. -/
theorem validateAllViews_summary_spec_witness :
    (validateAllViews valEnvW).totalViews =
      (validateAllViews valEnvW).validViews +
        (validateAllViews valEnvW).invalidViews ∧
    (validateAllViews valEnvW).totalViews = 2 ∧
    (validateAllViews valEnvW).validViews = 1 ∧
    (validateAllViews valEnvW).invalidViews = 1 ∧
    viewResult valEnvW viewW2 =
      { viewId := viewW2.id, viewName := viewW2.name, success := false
        validationResult :=
          { isValid := false, issues := [], validatedView := viewW2
            summary := ⟨1, 0, 0⟩ }
        error := some (str "boom") } := by
  refine ⟨(validateAllViews_summary_spec valEnvW).2.2.2.2.1, by decide, by decide,
    by decide, ?_⟩
  exact (validateAllViews_summary_spec valEnvW).2.2.2.2.2.2 viewW2 (str "boom") rfl

/-- Case analysis of `createViewFromDocument`: the result always carries
the input document's path, and every failed result carries an error
message (the try/catch converts every thrown collaborator exception into a
tagged failure value). -/
theorem createViewFromDocument_tagged (env : ViewEnv) (repo : Line)
    (d : UntrackedDocumentInfo) (opts : ViewCreationOptions) :
    (createViewFromDocument env repo d opts).file = d.filePath ∧
    ((createViewFromDocument env repo d opts).success = false →
      (createViewFromDocument env repo d opts).error.isSome) := by
  unfold createViewFromDocument
  repeat' split
  all_goals try simp
  all_goals (split <;> simp)

/-- C9.  `createViewsFromDocuments` returns exactly one result per input
document, in input order; the result for document `i` is a function of
document `i` alone; and a per-item failure is reported as a tagged
`success = false` result carrying an error message rather than an
exception, so it cannot abort the processing of the remaining documents. -/
theorem createViewsFromDocuments_batch_spec (env : ViewEnv) (repo : Line)
    (docs : List UntrackedDocumentInfo) (opts : ViewCreationOptions) :
    (createViewsFromDocuments env repo docs opts).length = docs.length ∧
    (∀ i : Nat, (createViewsFromDocuments env repo docs opts)[i]? =
      (docs[i]?).map fun d => createViewFromDocument env repo d opts) ∧
    (∀ d : UntrackedDocumentInfo,
      (createViewFromDocument env repo d opts).file = d.filePath) ∧
    (∀ d : UntrackedDocumentInfo,
      (createViewFromDocument env repo d opts).success = false →
        (createViewFromDocument env repo d opts).error.isSome) := by
  refine ⟨by simp [createViewsFromDocuments], ?_, ?_, ?_⟩
  · intro i
    simp [createViewsFromDocuments]
  · exact fun d => (createViewFromDocument_tagged env repo d opts).1
  · exact fun d => (createViewFromDocument_tagged env repo d opts).2

/-- C9 witness: a three-document batch in which reading the second
document throws: three results are produced in order, the middle one a
tagged failure, the other two successes. -/
theorem createViewsFromDocuments_batch_spec_witness :
    (createViewsFromDocuments viewEnvW (str "r") [docA, docB, docC]
      optsDry).length = [docA, docB, docC].length ∧
    ((createViewsFromDocuments viewEnvW (str "r") [docA, docB, docC]
      optsDry).map fun r => r.success) = [true, false, true] ∧
    ((createViewsFromDocuments viewEnvW (str "r") [docA, docB, docC]
      optsDry).map fun r => r.file) = [str "a.md", str "b.md", str "c.md"] ∧
    (createViewFromDocument viewEnvW (str "r") docB optsDry).error.isSome := by
  refine ⟨(createViewsFromDocuments_batch_spec viewEnvW (str "r")
      [docA, docB, docC] optsDry).1, by decide, by decide, ?_⟩
  exact (createViewsFromDocuments_batch_spec viewEnvW (str "r")
    [docA, docB, docC] optsDry).2.2.2 docB (by decide)

/-!
 ## Parser state projection lemmas
-/

@[simp] theorem flushCurrent_name (st : ParserState) :
    (flushCurrent st).name = st.name := rfl
@[simp] theorem flushCurrent_description (st : ParserState) :
    (flushCurrent st).description = st.description := rfl
@[simp] theorem flushCurrent_inDescription (st : ParserState) :
    (flushCurrent st).inDescription = st.inDescription := rfl
@[simp] theorem flushCurrent_currentSection (st : ParserState) :
    (flushCurrent st).currentSection = st.currentSection := rfl
@[simp] theorem flushCurrent_currentFiles (st : ParserState) :
    (flushCurrent st).currentFiles = st.currentFiles := rfl
@[simp] theorem flushCurrent_sectionIndex (st : ParserState) :
    (flushCurrent st).sectionIndex = st.sectionIndex := rfl
@[simp] theorem flushCurrent_maxRow (st : ParserState) :
    (flushCurrent st).maxRow = max st.maxRow (st.sectionIndex / 3) := rfl
@[simp] theorem flushCurrent_maxCol (st : ParserState) :
    (flushCurrent st).maxCol = max st.maxCol (st.sectionIndex % 3) := rfl
@[simp] theorem flushCurrent_groups (st : ParserState) :
    (flushCurrent st).groups =
      upsert st.groups st.currentSection
        ⟨(st.sectionIndex / 3, st.sectionIndex % 3), st.currentFiles, 0⟩ := rfl
@[simp] theorem flushBump_name (st : ParserState) :
    (flushBump st).name = st.name := rfl
@[simp] theorem flushBump_description (st : ParserState) :
    (flushBump st).description = st.description := rfl
@[simp] theorem flushBump_inDescription (st : ParserState) :
    (flushBump st).inDescription = st.inDescription := rfl
@[simp] theorem flushBump_currentSection (st : ParserState) :
    (flushBump st).currentSection = st.currentSection := rfl
@[simp] theorem flushBump_currentFiles (st : ParserState) :
    (flushBump st).currentFiles = st.currentFiles := rfl
@[simp] theorem flushBump_sectionIndex (st : ParserState) :
    (flushBump st).sectionIndex = st.sectionIndex + 1 := rfl

/-- The title assignment of one parser step: the name is overwritten with
the trimmed heading text exactly when the line is a level-1 heading and
the current name is still the placeholder. -/
theorem stepCore_name (fs : Line → Bool) (r : Option Line)
    (st : ParserState) (l : Line) :
    (stepCore fs r st l).name =
      if startsWithL l (str "# ") ∧ st.name = placeholderName then
        trimL (l.drop 2)
      else st.name := by
  unfold stepCore
  repeat' split
  all_goals try simp_all
  all_goals (split <;> simp_all)

/-- Once the name differs from the placeholder it never changes again. -/
theorem foldl_name_stable (fs : Line → Bool) (r : Option Line) :
    ∀ (ls : List Line) (st : ParserState), st.name ≠ placeholderName →
      (ls.foldl (stepCore fs r) st).name = st.name := by
  intro ls
  induction ls with
  | nil => intro st _; rfl
  | cons l ls ih =>
    intro st h
    rw [List.foldl_cons,
      ih _ (by rw [stepCore_name, if_neg (by tauto)]; exact h),
      stepCore_name, if_neg (by tauto)]

/-- While the name is still the placeholder, the final name is the first
title candidate of the remaining lines. -/
theorem foldl_name_placeholder (fs : Line → Bool) (r : Option Line) :
    ∀ (ls : List Line) (st : ParserState), st.name = placeholderName →
      (ls.foldl (stepCore fs r) st).name =
        (ls.findSome? titleCandidate).getD placeholderName := by
  intro ls
  induction ls with
  | nil => intro st h; simpa using h
  | cons l ls ih =>
    intro st h
    rw [List.foldl_cons, List.findSome?_cons]
    by_cases hh : startsWithL l (str "# ")
    · by_cases ht : trimL (l.drop 2) = placeholderName
      · have hname : (stepCore fs r st l).name = trimL (l.drop 2) := by
          rw [stepCore_name, if_pos ⟨hh, h⟩]
        rw [ih _ (by rw [hname, ht])]
        simp [titleCandidate, hh, ht]
      · have hname : (stepCore fs r st l).name = trimL (l.drop 2) := by
          rw [stepCore_name, if_pos ⟨hh, h⟩]
        rw [foldl_name_stable fs r ls _ (by rw [hname]; exact ht), hname]
        simp [titleCandidate, hh, ht]
    · have hname : (stepCore fs r st l).name = st.name := by
        rw [stepCore_name, if_neg (by tauto)]
      rw [ih _ (by rw [hname]; exact h)]
      simp [titleCandidate, hh]

/-- C2 (amended).  The title returned by `extractStructureFromMarkdown` is
the trimmed heading text of the first level-1 heading line whose trimmed
text differs from the placeholder `"Codebase View"`; it is the placeholder
when no such line exists.  (Consequently level-1 headings are scanned for
the title only while the captured title is still the placeholder.) -/
theorem extract_title_spec (fs : Line → Bool) (content : Line)
    (r : Option Line) :
    (extractStructureFromMarkdown fs content r).name = titleSpec content := by
  have hpre : (parsePre fs content r).name =
      ((((splitLines content).map trimL)).findSome? titleCandidate).getD
        placeholderName := by
    unfold parsePre
    have hmap : (splitLines content).foldl (stepLine fs r) initState =
        (((splitLines content).map trimL)).foldl (stepCore fs r) initState := by
      rw [List.foldl_map]
      rfl
    rw [hmap]
    exact foldl_name_placeholder fs r _ initState rfl
  have hfin : (parseFinal fs content r).name = (parsePre fs content r).name := by
    show (if ¬(parsePre fs content r).currentSection.isEmpty ∧
        ¬(parsePre fs content r).currentFiles.isEmpty then
          flushCurrent (parsePre fs content r)
        else parsePre fs content r).name = (parsePre fs content r).name
    split
    · rw [flushCurrent_name]
    · rfl
  show (if ((parseFinal fs content r).name).isEmpty then placeholderName
      else (parseFinal fs content r).name) =
    (if ((((splitLines content).map trimL).findSome? titleCandidate).getD
          placeholderName).isEmpty then placeholderName
      else (((splitLines content).map trimL).findSome? titleCandidate).getD
        placeholderName)
  rw [hfin, hpre]

/-- C2 counterexample to the claim as stated: in the document
`"# Codebase View\n# Second"` the first level-1 heading has (trimmed) text
`"Codebase View"`, yet the returned title is `"Second"` — the second
level-1 heading changed the title, because the source guards title capture
by `name === 'Codebase View'` rather than by a first-heading flag. -/
theorem extract_title_counterexample :
    (extractStructureFromMarkdown (fun _ => false)
      (str "# Codebase View\n# Second") none).name = str "Second" ∧
    str "Second" ≠ str "Codebase View" := by
  constructor
  · decide
  · decide

/-- Description effect of one parser step. -/
theorem stepCore_description (fs : Line → Bool) (r : Option Line)
    (st : ParserState) (l : Line) :
    (stepCore fs r st l).description =
      if startsWithL l (str "# ") ∧ st.name = placeholderName then
        st.description
      else if st.inDescription ∧ ¬l.isEmpty ∧ ¬startsWithL l (str "#") then
        (if st.description.isEmpty then l else st.description ++ ' ' :: l)
      else st.description := by
  unfold stepCore
  repeat' split
  all_goals try simp_all
  all_goals (split <;> simp_all)

/-- Description-mode effect of one parser step. -/
theorem stepCore_inDescription (fs : Line → Bool) (r : Option Line)
    (st : ParserState) (l : Line) :
    (stepCore fs r st l).inDescription =
      if startsWithL l (str "# ") ∧ st.name = placeholderName then true
      else if st.inDescription ∧ ¬l.isEmpty ∧ ¬startsWithL l (str "#") then
        st.inDescription
      else if st.inDescription ∧ (startsWithL l (str "#") ∨ l.isEmpty) then
        false
      else st.inDescription := by
  unfold stepCore
  repeat' split
  all_goals try simp_all
  all_goals (split <;> simp_all)

/-- A line starting with `"# "` starts with `"#"`. -/
theorem startsWith_hash_of_h1 (l : Line) :
    startsWithL l (str "# ") = true → startsWithL l (str "#") = true := by
  cases l with
  | nil => simp [startsWithL, str]
  | cons c cs =>
    show (decide (c = '#') && startsWithL cs (str " ")) = true →
      (decide (c = '#') && startsWithL cs []) = true
    cases hc : decide (c = '#') <;> simp [startsWithL]

/-- With description capture off and the title already captured, the
description never changes again. -/
theorem foldl_desc_off (fs : Line → Bool) (r : Option Line) :
    ∀ (ls : List Line) (st : ParserState), st.name ≠ placeholderName →
      st.inDescription = false →
      (ls.foldl (stepCore fs r) st).description = st.description := by
  intro ls
  induction ls with
  | nil => intro st _ _; rfl
  | cons l ls ih =>
    intro st hname hdesc
    rw [List.foldl_cons]
    have hstep_desc : (stepCore fs r st l).description = st.description := by
      rw [stepCore_description, if_neg (by tauto)]
      simp [hdesc]
    have hstep_in : (stepCore fs r st l).inDescription = false := by
      rw [stepCore_inDescription, if_neg (by tauto)]
      simp [hdesc]
    rw [ih _ (by rw [stepCore_name, if_neg (by tauto)]; exact hname) hstep_in,
      hstep_desc]

/-- With description capture on and the title already captured, the final
description accumulates exactly the leading run of non-empty non-heading
lines. -/
theorem foldl_desc_on (fs : Line → Bool) (r : Option Line) :
    ∀ (ls : List Line) (st : ParserState), st.name ≠ placeholderName →
      st.inDescription = true →
      (ls.foldl (stepCore fs r) st).description =
        joinAcc st.description (ls.takeWhile descLine) := by
  intro ls
  induction ls with
  | nil => intro st _ _; rfl
  | cons l ls ih =>
    intro st hname hdesc
    rw [List.foldl_cons]
    by_cases hl : descLine l = true
    · have hl' := hl
      simp only [descLine, decide_eq_true_eq] at hl'
      have hstep_desc : (stepCore fs r st l).description =
          (if st.description.isEmpty then l else st.description ++ ' ' :: l) := by
        rw [stepCore_description, if_neg (by tauto), if_pos ⟨hdesc, hl'⟩]
      have hstep_in : (stepCore fs r st l).inDescription = true := by
        rw [stepCore_inDescription, if_neg (by tauto), if_pos ⟨hdesc, hl'⟩]
        exact hdesc
      have hstep_name : (stepCore fs r st l).name = st.name := by
        rw [stepCore_name, if_neg (by tauto)]
      rw [ih _ (by rw [hstep_name]; exact hname) hstep_in, hstep_desc]
      rw [List.takeWhile_cons, hl]
      rfl
    · have hl' : startsWithL l (str "#") = true ∨ l.isEmpty = true := by
        simp only [descLine, decide_eq_true_eq] at hl
        by_cases h1 : l.isEmpty
        · right; exact h1
        · left
          by_cases h2 : startsWithL l (str "#")
          · exact h2
          · exact absurd ⟨fun hh => h1 hh, fun hh => h2 hh⟩ hl
      have hno2 : ¬(st.inDescription = true ∧ ¬l.isEmpty = true ∧
          ¬startsWithL l (str "#") = true) := by
        rintro ⟨-, h1, h2⟩
        rcases hl' with h | h
        · exact h2 h
        · exact h1 h
      have hstep_desc : (stepCore fs r st l).description = st.description := by
        rw [stepCore_description, if_neg (by tauto), if_neg hno2]
      have hstep_in : (stepCore fs r st l).inDescription = false := by
        rw [stepCore_inDescription, if_neg (by tauto), if_neg hno2]
        rw [if_pos ⟨hdesc, by rcases hl' with h | h
                              · exact Or.inl h
                              · exact Or.inr h⟩]
      have hstep_name : (stepCore fs r st l).name = st.name := by
        rw [stepCore_name, if_neg (by tauto)]
      rw [foldl_desc_off fs r ls _ (by rw [hstep_name]; exact hname) hstep_in,
        hstep_desc, List.takeWhile_cons, if_neg hl]
      rfl

/-- `joinAcc` from a nonempty accumulator is a space-join. -/
theorem joinAcc_eq_joinSpace_cons :
    ∀ (gs : List Line) (d : Line), ¬d.isEmpty →
      joinAcc d gs = joinSpace (d :: gs) := by
  intro gs
  induction gs with
  | nil => intro d _; rfl
  | cons g gs ih =>
    intro d hd
    show joinAcc (if d.isEmpty then g else d ++ ' ' :: g) gs = _
    rw [if_neg hd]
    rw [ih (d ++ ' ' :: g) (by simp)]
    show joinSpace ((d ++ ' ' :: g) :: gs) = joinSpace (d :: g :: gs)
    cases gs with
    | nil => rfl
    | cons g2 gs2 =>
      show (d ++ ' ' :: g) ++ ' ' :: joinSpace (g2 :: gs2) =
        d ++ ' ' :: joinSpace (g :: g2 :: gs2)
      rw [List.append_assoc]
      rfl

/-- `joinAcc` from the empty accumulator is the space-join, provided the
first line is non-empty. -/
theorem joinAcc_nil_eq_joinSpace :
    ∀ gs : List Line, (∀ l ∈ gs, descLine l = true) →
      joinAcc [] gs = joinSpace gs := by
  intro gs hgs
  cases gs with
  | nil => rfl
  | cons g gs2 =>
    have hg : ¬g.isEmpty := by
      have := hgs g (by simp)
      simp only [descLine, decide_eq_true_eq] at this
      exact this.1
    show joinAcc g gs2 = joinSpace (g :: gs2)
    exact joinAcc_eq_joinSpace_cons gs2 g hg

/-- Main description lemma: starting from the initial description state,
when the first level-1 heading line carries a non-placeholder title, the
final description is the accumulated leading run of non-empty non-heading
lines following that heading. -/
theorem foldl_desc_main (fs : Line → Bool) (r : Option Line) :
    ∀ (ls : List Line) (st : ParserState), st.inDescription = false →
      st.description = [] → st.name = placeholderName →
      (match ls.find? (fun l => startsWithL l (str "# ")) with
        | some l0 => trimL (l0.drop 2) ≠ placeholderName
        | none => False) →
      (ls.foldl (stepCore fs r) st).description =
        joinAcc []
          (((ls.dropWhile fun l => ¬startsWithL l (str "# ")).drop 1).takeWhile
            descLine) := by
  intro ls
  induction ls with
  | nil => intro st _ _ _ hOK; exact absurd hOK (by simp)
  | cons l ls ih =>
    intro st hin hdesc hname hOK
    rw [List.foldl_cons]
    by_cases hh : startsWithL l (str "# ") = true
    · rw [@List.find?_cons_of_pos _ (fun l => startsWithL l (str "# ")) l ls hh]
        at hOK
      have ht : trimL (l.drop 2) ≠ placeholderName := hOK
      have hstep_name : (stepCore fs r st l).name = trimL (l.drop 2) := by
        rw [stepCore_name, if_pos ⟨hh, hname⟩]
      have hstep_in : (stepCore fs r st l).inDescription = true := by
        rw [stepCore_inDescription, if_pos ⟨hh, hname⟩]
      have hstep_desc : (stepCore fs r st l).description = [] := by
        rw [stepCore_description, if_pos ⟨hh, hname⟩]
        exact hdesc
      rw [foldl_desc_on fs r ls _ (by rw [hstep_name]; exact ht) hstep_in,
        hstep_desc]
      have hdrop : (l :: ls).dropWhile (fun l => ¬startsWithL l (str "# "))
          = l :: ls := by
        rw [List.dropWhile_cons, if_neg (by simp [hh])]
      rw [hdrop]
      rfl
    · rw [@List.find?_cons_of_neg _ (fun l => startsWithL l (str "# ")) l ls hh]
        at hOK
      have hstep_name : (stepCore fs r st l).name = st.name := by
        rw [stepCore_name, if_neg (by tauto)]
      have hstep_in : (stepCore fs r st l).inDescription = false := by
        rw [stepCore_inDescription, if_neg (by tauto)]
        simp [hin]
      have hstep_desc : (stepCore fs r st l).description = [] := by
        rw [stepCore_description, if_neg (by tauto)]
        simp [hin, hdesc]
      rw [ih _ hstep_in hstep_desc (by rw [hstep_name]; exact hname) hOK]
      have hdrop : (l :: ls).dropWhile (fun l => ¬startsWithL l (str "# "))
          = ls.dropWhile (fun l => ¬startsWithL l (str "# ")) := by
        rw [List.dropWhile_cons, if_pos (by simp [hh])]
      rw [hdrop]

/-- C3 (amended).  For a document whose first level-1 heading has trimmed
text different from the placeholder, the returned description is the
space-joined concatenation of the consecutive non-empty non-heading lines
immediately following that heading (capture ending at the first heading or
blank line); when that run is empty the fixed default description is
returned instead. -/
theorem extract_description_spec (fs : Line → Bool) (content : Line)
    (r : Option Line) (h : firstTitleNotPlaceholder content = true) :
    (extractStructureFromMarkdown fs content r).description =
      if (descSpec content).isEmpty then defaultDescription
      else descSpec content := by
  have hOK : (match ((splitLines content).map trimL).find?
        (fun l => startsWithL l (str "# ")) with
      | some l0 => trimL (l0.drop 2) ≠ placeholderName
      | none => False) := by
    unfold firstTitleNotPlaceholder at h
    revert h
    cases hfind : ((splitLines content).map trimL).find?
        (fun l => startsWithL l (str "# ")) with
    | none => intro h; exact absurd h (by simp)
    | some l0 => intro h; simpa using h
  have hpre : (parsePre fs content r).description =
      joinAcc []
        (((((splitLines content).map trimL).dropWhile
            fun l => ¬startsWithL l (str "# ")).drop 1).takeWhile descLine) := by
    unfold parsePre
    have hmap : (splitLines content).foldl (stepLine fs r) initState =
        (((splitLines content).map trimL)).foldl (stepCore fs r) initState := by
      rw [List.foldl_map]
      rfl
    rw [hmap]
    exact foldl_desc_main fs r _ initState rfl rfl rfl hOK
  have hjoin : joinAcc []
      (((((splitLines content).map trimL).dropWhile
          fun l => ¬startsWithL l (str "# ")).drop 1).takeWhile descLine) =
      descSpec content := by
    unfold descSpec
    exact joinAcc_nil_eq_joinSpace _ (fun l hl => List.mem_takeWhile_imp hl)
  have hfin : (parseFinal fs content r).description =
      (parsePre fs content r).description := by
    show (if ¬(parsePre fs content r).currentSection.isEmpty ∧
        ¬(parsePre fs content r).currentFiles.isEmpty then
          flushCurrent (parsePre fs content r)
        else parsePre fs content r).description =
      (parsePre fs content r).description
    split
    · rw [flushCurrent_description]
    · rfl
  show (if ((parseFinal fs content r).description).isEmpty then
      defaultDescription else (parseFinal fs content r).description) = _
  rw [hfin, hpre, hjoin]

/-- C3 counterexample to the claim as stated: in `"# T\n\nHello."` the
title is immediately followed by a blank line, so the space-joined
captured run is empty, yet the returned description is the fixed default
string, not the empty string. -/
theorem extract_description_counterexample :
    (extractStructureFromMarkdown (fun _ => false) (str "# T\n\nHello.")
      none).description = str "Codebase view extracted from documentation" ∧
    str "Codebase view extracted from documentation" ≠ [] := by
  constructor
  · decide
  · decide

/-- C3 witness: a document with two description lines, a blank line and a
later paragraph: the description is the space-join of exactly the two
lines following the title. -/
theorem extract_description_spec_witness :
    firstTitleNotPlaceholder (str "# T\nd1\nd2\n\npara2 here") = true ∧
    (extractStructureFromMarkdown (fun _ => false)
      (str "# T\nd1\nd2\n\npara2 here") none).description = str "d1 d2" := by
  refine ⟨by decide, ?_⟩
  rw [extract_description_spec (fun _ => false) (str "# T\nd1\nd2\n\npara2 here")
    none (by decide)]
  decide

/-!
 ## Grid-assignment invariants
-/

/-- Membership in an upsert result. -/
theorem mem_upsert (g : List (Line × FileCell)) (k : Line) (v : FileCell) :
    ∀ p ∈ upsert g k v, p ∈ g ∨ p = (k, v) := by
  intro p hp
  unfold upsert at hp
  split at hp
  · obtain ⟨q, hq, hpq⟩ := List.mem_map.mp hp
    by_cases hqk : q.1 = k
    · right
      rw [← hpq]
      simp [hqk]
    · left
      rw [← hpq]
      simpa [hqk] using hq
  · rcases List.mem_append.mp hp with h | h
    · exact Or.inl h
    · right
      simpa using h

/-- Length of an upsert result. -/
theorem upsert_length (g : List (Line × FileCell)) (k : Line) (v : FileCell) :
    (upsert g k v).length =
      if g.any (fun p => p.1 = k) then g.length else g.length + 1 := by
  unfold upsert
  split
  · simp
  · simp

/-- Upsert of a fresh key appends. -/
theorem upsert_fresh (g : List (Line × FileCell)) (k : Line) (v : FileCell)
    (h : ¬g.any (fun p => p.1 = k) = true) : upsert g k v = g ++ [(k, v)] := by
  unfold upsert
  rw [if_neg h]

/-- Each parser step either leaves the grid state (section counter, tracked
maxima, stored groups) unchanged, or performs exactly one flush of the
current (non-empty) section. -/
theorem stepCore_grid_cases (fs : Line → Bool) (r : Option Line)
    (st : ParserState) (l : Line) :
    ((stepCore fs r st l).sectionIndex = st.sectionIndex ∧
      (stepCore fs r st l).maxRow = st.maxRow ∧
      (stepCore fs r st l).maxCol = st.maxCol ∧
      (stepCore fs r st l).groups = st.groups) ∨
    ((stepCore fs r st l).sectionIndex = st.sectionIndex + 1 ∧
      (stepCore fs r st l).maxRow = max st.maxRow (st.sectionIndex / 3) ∧
      (stepCore fs r st l).maxCol = max st.maxCol (st.sectionIndex % 3) ∧
      (stepCore fs r st l).groups =
        upsert st.groups st.currentSection
          ⟨(st.sectionIndex / 3, st.sectionIndex % 3), st.currentFiles, 0⟩ ∧
      ¬st.currentFiles.isEmpty = true) := by
  unfold stepCore flushBump flushCurrent
  repeat' split
  all_goals dsimp only
  all_goals first
    | (left; simp_all; done)
    | (right; simp_all; done)
    | (split <;> first | (right; simp_all; done) | (left; simp_all; done))

/-- One step preserves `gridMaxInv`. -/
theorem stepCore_gridMaxInv (fs : Line → Bool) (r : Option Line)
    (st : ParserState) (l : Line) (h : gridMaxInv st) :
    gridMaxInv (stepCore fs r st l) := by
  obtain ⟨h1, h2⟩ := h
  unfold gridMaxInv
  rcases stepCore_grid_cases fs r st l with ⟨e1, e2, e3, _⟩ | ⟨e1, e2, e3, _, _⟩
  · rw [e2, e3, e1]
    exact ⟨h1, h2⟩
  · rw [e2, e3, e1]
    constructor
    · rw [h1]
      split <;> split <;> omega
    · rw [h2]
      split <;> split <;> omega

/-- One step preserves `gridCoordInv`. -/
theorem stepCore_gridCoordInv (fs : Line → Bool) (r : Option Line)
    (st : ParserState) (l : Line) (h : gridCoordInv st) :
    gridCoordInv (stepCore fs r st l) := by
  obtain ⟨h1, h2⟩ := h
  unfold gridCoordInv
  rcases stepCore_grid_cases fs r st l with ⟨e1, _, _, e4⟩ | ⟨e1, _, _, e4, _⟩
  · rw [e4, e1]
    exact ⟨h1, h2⟩
  · rw [e4, e1]
    by_cases hc : st.groups.any (fun p => p.1 = st.currentSection) = true
    · constructor
      · rw [upsert_length, if_pos hc]
        omega
      · intro hlen
        rw [upsert_length, if_pos hc] at hlen
        omega
    · constructor
      · rw [upsert_length, if_neg hc]
        omega
      · intro hlen
        rw [upsert_length, if_neg hc] at hlen
        have hlen' : st.groups.length = st.sectionIndex := by omega
        rw [upsert_fresh _ _ _ hc, List.map_append, h2 hlen',
          List.range_succ, List.map_append]
        rfl

/-- Each group stored by a step carries a non-empty file list. -/
theorem stepCore_groups_nonempty (fs : Line → Bool) (r : Option Line)
    (st : ParserState) (l : Line)
    (h : ∀ p ∈ st.groups, ¬p.2.files.isEmpty = true) :
    ∀ p ∈ (stepCore fs r st l).groups, ¬p.2.files.isEmpty = true := by
  rcases stepCore_grid_cases fs r st l with ⟨_, _, _, e4⟩ | ⟨_, _, _, e4, hne⟩
  · rw [e4]
    exact h
  · rw [e4]
    intro p hp
    rcases mem_upsert _ _ _ p hp with hmem | rfl
    · exact h p hmem
    · exact hne

/-- `gridMaxInv` is preserved by the line loop. -/
theorem foldl_gridMaxInv (fs : Line → Bool) (r : Option Line) :
    ∀ (ls : List Line) (st : ParserState), gridMaxInv st →
      gridMaxInv (ls.foldl (stepLine fs r) st) := by
  intro ls
  induction ls with
  | nil => intro st h; exact h
  | cons l ls ih =>
    intro st h
    exact ih _ (stepCore_gridMaxInv fs r st (trimL l) h)

/-- `gridCoordInv` is preserved by the line loop. -/
theorem foldl_gridCoordInv (fs : Line → Bool) (r : Option Line) :
    ∀ (ls : List Line) (st : ParserState), gridCoordInv st →
      gridCoordInv (ls.foldl (stepLine fs r) st) := by
  intro ls
  induction ls with
  | nil => intro st h; exact h
  | cons l ls ih =>
    intro st h
    exact ih _ (stepCore_gridCoordInv fs r st (trimL l) h)

/-- Non-emptiness of stored file lists is preserved by the line loop. -/
theorem foldl_groups_nonempty (fs : Line → Bool) (r : Option Line) :
    ∀ (ls : List Line) (st : ParserState),
      (∀ p ∈ st.groups, ¬p.2.files.isEmpty = true) →
      ∀ p ∈ (ls.foldl (stepLine fs r) st).groups, ¬p.2.files.isEmpty = true := by
  intro ls
  induction ls with
  | nil => intro st h; exact h
  | cons l ls ih =>
    intro st h
    exact ih _ (stepCore_groups_nonempty fs r st (trimL l) h)

/-- `gridMaxInv` holds after the whole line loop. -/
theorem parsePre_gridMaxInv (fs : Line → Bool) (content : Line)
    (r : Option Line) : gridMaxInv (parsePre fs content r) :=
  foldl_gridMaxInv fs r _ initState ⟨rfl, rfl⟩

/-- `gridCoordInv` holds after the whole line loop. -/
theorem parsePre_gridCoordInv (fs : Line → Bool) (content : Line)
    (r : Option Line) : gridCoordInv (parsePre fs content r) :=
  foldl_gridCoordInv fs r _ initState ⟨by simp [initState], fun _ => rfl⟩

/-- All groups after the whole line loop have non-empty file lists. -/
theorem parsePre_groups_nonempty (fs : Line → Bool) (content : Line)
    (r : Option Line) :
    ∀ p ∈ (parsePre fs content r).groups, ¬p.2.files.isEmpty = true :=
  foldl_groups_nonempty fs r _ initState (by intro p hp; simp [initState] at hp)

/-- Grid state after the conditional final flush, in terms of the total
flush count. -/
theorem parseFinal_grid (fs : Line → Bool) (content : Line) (r : Option Line) :
    (parseFinal fs content r).groups.length ≤ flushTotal fs content r ∧
    ((parseFinal fs content r).groups.length = flushTotal fs content r →
      (parseFinal fs content r).groups.map (fun p => p.2.coordinates) =
        (List.range (flushTotal fs content r)).map fun i => (i / 3, i % 3)) ∧
    (parseFinal fs content r).maxRow =
      (if flushTotal fs content r = 0 then 0
        else (flushTotal fs content r - 1) / 3) ∧
    (parseFinal fs content r).maxCol =
      (if flushTotal fs content r = 0 then 0
        else min (flushTotal fs content r - 1) 2) := by
  obtain ⟨hq1, hq2⟩ := parsePre_gridCoordInv fs content r
  obtain ⟨hm1, hm2⟩ := parsePre_gridMaxInv fs content r
  have hfin : parseFinal fs content r =
      (if ¬(parsePre fs content r).currentSection.isEmpty ∧
          ¬(parsePre fs content r).currentFiles.isEmpty then
        flushCurrent (parsePre fs content r)
      else parsePre fs content r) := rfl
  have htot : flushTotal fs content r = (parsePre fs content r).sectionIndex +
      (if ¬(parsePre fs content r).currentSection.isEmpty ∧
          ¬(parsePre fs content r).currentFiles.isEmpty then 1 else 0) := rfl
  by_cases hc : ¬(parsePre fs content r).currentSection.isEmpty ∧
      ¬(parsePre fs content r).currentFiles.isEmpty
  · rw [hfin, if_pos hc, htot, if_pos hc]
    refine ⟨?_, ?_, ?_, ?_⟩
    · rw [flushCurrent_groups, upsert_length]
      split <;> omega
    · intro hlen
      rw [flushCurrent_groups, upsert_length] at hlen
      rw [flushCurrent_groups]
      by_cases hcol : (parsePre fs content r).groups.any
          (fun p => p.1 = (parsePre fs content r).currentSection) = true
      · rw [if_pos hcol] at hlen
        omega
      · rw [if_neg hcol] at hlen
        have hlen' : (parsePre fs content r).groups.length =
            (parsePre fs content r).sectionIndex := by omega
        rw [upsert_fresh _ _ _ hcol, List.map_append, hq2 hlen',
          List.range_succ, List.map_append]
        rfl
    · rw [flushCurrent_maxRow, hm1, if_neg (Nat.succ_ne_zero _)]
      split <;> omega
    · rw [flushCurrent_maxCol, hm2, if_neg (Nat.succ_ne_zero _)]
      split <;> omega
  · rw [hfin, if_neg hc, htot, if_neg hc]
    simp only [Nat.add_zero]
    exact ⟨hq1, hq2, hm1, hm2⟩

/-- C1 (grid assignment).  Provided the flushed section names are pairwise
distinct (no group-key collision: the number of stored groups equals the
number of flushes), the i-th emitted group carries coordinates
`(i / 3, i mod 3)`; the grid size is `rows = maxRow + 1`,
`cols = min (maxCol + 1) 3` in terms of the tracked maxima, which for `n`
emitted sections comes to `rows = (n-1)/3 + 1` and `cols = min n 3`. -/
theorem extract_grid_assignment (fs : Line → Bool) (content : Line)
    (r : Option Line)
    (h : (extractStructureFromMarkdown fs content r).referenceGroups.length =
      flushTotal fs content r)
    (hpos :
      (extractStructureFromMarkdown fs content r).referenceGroups.length ≠ 0) :
    ((extractStructureFromMarkdown fs content r).referenceGroups.map
        (fun p => p.2.coordinates) =
      (List.range
        (extractStructureFromMarkdown fs content r).referenceGroups.length).map
          fun i => (i / 3, i % 3)) ∧
    (extractStructureFromMarkdown fs content r).rows =
      (parseFinal fs content r).maxRow + 1 ∧
    (extractStructureFromMarkdown fs content r).cols =
      min ((parseFinal fs content r).maxCol + 1) 3 ∧
    (extractStructureFromMarkdown fs content r).rows =
      ((extractStructureFromMarkdown fs content r).referenceGroups.length - 1)
        / 3 + 1 ∧
    (extractStructureFromMarkdown fs content r).cols =
      min (extractStructureFromMarkdown fs content r).referenceGroups.length
        3 := by
  have hg : (extractStructureFromMarkdown fs content r).referenceGroups =
      (parseFinal fs content r).groups := rfl
  obtain ⟨p1, p2, p3, p4⟩ := parseFinal_grid fs content r
  have hlen0 : 0 < (parseFinal fs content r).groups.length := by
    rw [← hg]
    omega
  have hrows : (extractStructureFromMarkdown fs content r).rows =
      (parseFinal fs content r).maxRow + 1 := by
    show (if 0 < (parseFinal fs content r).groups.length then
        (parseFinal fs content r).maxRow + 1 else 1) = _
    rw [if_pos hlen0]
  have hcols : (extractStructureFromMarkdown fs content r).cols =
      min ((parseFinal fs content r).maxCol + 1) 3 := by
    show (if 0 < (parseFinal fs content r).groups.length then
        min ((parseFinal fs content r).maxCol + 1) 3 else 1) = _
    rw [if_pos hlen0]
  have hflush0 : flushTotal fs content r ≠ 0 := by
    rw [← h]
    exact hpos
  refine ⟨?_, hrows, hcols, ?_, ?_⟩
  · rw [hg] at h ⊢
    rw [h]
    exact p2 h
  · rw [hrows, p3, ← h, if_neg hpos]
  · rw [hcols, p4, ← h, if_neg hpos]
    have := hpos
    omega

/-- C1 witness: the seven-section document yields groups at coordinates
`(0,0) … (2,0)` in heading order and a `3 × 3` grid. -/
theorem extract_grid_assignment_witness :
    (extractStructureFromMarkdown (fun _ => true) doc7
        (some (str "repo"))).referenceGroups.length =
      flushTotal (fun _ => true) doc7 (some (str "repo")) ∧
    ((extractStructureFromMarkdown (fun _ => true) doc7
        (some (str "repo"))).referenceGroups.map fun p => p.2.coordinates) =
      [(0, 0), (0, 1), (0, 2), (1, 0), (1, 1), (1, 2), (2, 0)] ∧
    (extractStructureFromMarkdown (fun _ => true) doc7
      (some (str "repo"))).rows = 3 ∧
    (extractStructureFromMarkdown (fun _ => true) doc7
      (some (str "repo"))).cols = 3 := by
  have h := extract_grid_assignment (fun _ => true) doc7 (some (str "repo"))
    (by decide) (by decide)
  refine ⟨by decide, ?_, by decide, by decide⟩
  rw [h.1]
  decide

/-- C4.  A section with no discovered files is never emitted (every stored
group's file list is non-empty); with no emitted sections the grid
degenerates to `1 × 1`; and a dropped section does not consume a grid
index — in the concrete three-section document whose middle section has no
file reference, the third section takes coordinates `(0, 1)`. -/
theorem extract_empty_sections_dropped (fs : Line → Bool) (content : Line)
    (r : Option Line) :
    (∀ p ∈ (extractStructureFromMarkdown fs content r).referenceGroups,
      ¬p.2.files.isEmpty = true) ∧
    ((extractStructureFromMarkdown fs content r).referenceGroups = [] →
      (extractStructureFromMarkdown fs content r).rows = 1 ∧
      (extractStructureFromMarkdown fs content r).cols = 1) ∧
    ((extractStructureFromMarkdown (fun _ => false) docSkip
        none).referenceGroups.map fun p => (p.1, p.2.coordinates)) =
      [(str "A", (0, 0)), (str "C", (0, 1))] := by
  have hg : (extractStructureFromMarkdown fs content r).referenceGroups =
      (parseFinal fs content r).groups := rfl
  refine ⟨?_, ?_, by decide⟩
  · rw [hg]
    have hpre := parsePre_groups_nonempty fs content r
    have hfin : parseFinal fs content r =
        (if ¬(parsePre fs content r).currentSection.isEmpty ∧
            ¬(parsePre fs content r).currentFiles.isEmpty then
          flushCurrent (parsePre fs content r)
        else parsePre fs content r) := rfl
    rw [hfin]
    split
    · rename_i hc
      rw [flushCurrent_groups]
      intro p hp
      rcases mem_upsert _ _ _ p hp with hmem | rfl
      · exact hpre p hmem
      · exact hc.2
    · exact hpre
  · intro hempty
    have hlen : (parseFinal fs content r).groups.length = 0 := by
      rw [← hg, hempty]
      rfl
    constructor
    · show (if 0 < (parseFinal fs content r).groups.length then
          (parseFinal fs content r).maxRow + 1 else 1) = 1
      rw [hlen]
      rfl
    · show (if 0 < (parseFinal fs content r).groups.length then
          min ((parseFinal fs content r).maxCol + 1) 3 else 1) = 1
      rw [hlen]
      rfl

/-- C4 witness: instantiation at the concrete documents — the emitted
section of `docSkip` has a non-empty file list, and the heading-free
document yields the degenerate `1 × 1` grid. -/
theorem extract_empty_sections_dropped_witness :
    ¬((str "A",
        ({ coordinates := (0, 0), files := [str "a.ts"], priority := 0 } :
          FileCell)).2.files.isEmpty = true) ∧
    (extractStructureFromMarkdown (fun _ => false) docPlain none).rows = 1 ∧
    (extractStructureFromMarkdown (fun _ => false) docPlain none).cols = 1 := by
  refine ⟨(extract_empty_sections_dropped (fun _ => false) docSkip none).1 _
    (by decide), ?_, ?_⟩
  · exact ((extract_empty_sections_dropped (fun _ => false) docPlain
      none).2.1 (by decide)).1
  · exact ((extract_empty_sections_dropped (fun _ => false) docPlain
      none).2.1 (by decide)).2

/-!
 ## Keep-first deduplication lemmas
-/

@[simp] theorem firstSeen_nil : firstSeen [] = [] := by rw [firstSeen]

theorem mem_firstSeen : ∀ (l : List Line) (a : Line), a ∈ firstSeen l ↔ a ∈ l := by
  intro l
  induction l using firstSeen.induct with
  | case1 => intro a; rw [firstSeen_nil]
  | case2 c cs ih =>
    intro a
    rw [firstSeen]
    constructor
    · intro h
      rcases List.mem_cons.mp h with rfl | h
      · exact List.mem_cons_self _ _
      · have := (ih a).mp h
        exact List.mem_cons_of_mem _ (List.mem_filter.mp this).1
    · intro h
      rcases List.mem_cons.mp h with rfl | h
      · exact List.mem_cons_self _ _
      · by_cases hac : a = c
        · subst hac
          exact List.mem_cons_self _ _
        · refine List.mem_cons_of_mem _ ((ih a).mpr ?_)
          exact List.mem_filter.mpr ⟨h, by simpa using hac⟩

theorem firstSeen_eq_nil_iff (l : List Line) : firstSeen l = [] ↔ l = [] := by
  cases l with
  | nil => simp [firstSeen]
  | cons c cs => rw [firstSeen]; simp

theorem firstSeen_nodup : ∀ l : List Line, (firstSeen l).Nodup := by
  intro l
  induction l using firstSeen.induct with
  | case1 => rw [firstSeen_nil]; exact List.nodup_nil
  | case2 c cs ih =>
    rw [firstSeen]
    refine List.nodup_cons.mpr ⟨?_, ih⟩
    intro hc
    have := (List.mem_filter.mp ((mem_firstSeen _ _).mp hc)).2
    simp at this

theorem firstSeen_append_single : ∀ (l : List Line) (a : Line),
    firstSeen (l ++ [a]) = if a ∈ l then firstSeen l else firstSeen l ++ [a] := by
  intro l
  induction l using firstSeen.induct with
  | case1 =>
    intro a
    simp [firstSeen]
  | case2 c cs ih =>
    intro a
    by_cases hac : a = c
    · subst hac
      rw [List.cons_append, firstSeen, firstSeen, if_pos (List.mem_cons_self _ _)]
      congr 1
      rw [List.filter_append]
      simp
    · rw [List.cons_append, firstSeen, firstSeen]
      have hfa : (cs ++ [a]).filter (fun d => decide (d ≠ c)) =
          cs.filter (fun d => decide (d ≠ c)) ++ [a] := by
        rw [List.filter_append]
        simp [hac]
      rw [hfa, ih a]
      by_cases hmem : a ∈ cs
      · have h1 : a ∈ cs.filter (fun d => decide (d ≠ c)) :=
          List.mem_filter.mpr ⟨hmem, by simpa using hac⟩
        rw [if_pos h1, if_pos (List.mem_cons_of_mem _ hmem)]
      · have h1 : a ∉ cs.filter (fun d => decide (d ≠ c)) := by
          intro h
          exact hmem (List.mem_filter.mp h).1
        rw [if_neg h1, if_neg (by simp [hac, hmem])]
        rfl

theorem foldl_pushUnique : ∀ (ds cs : List Line),
    ds.foldl pushUnique (firstSeen cs) = firstSeen (cs ++ ds) := by
  intro ds
  induction ds with
  | nil => intro cs; simp
  | cons d ds ih =>
    intro cs
    rw [List.foldl_cons]
    have hpush : pushUnique (firstSeen cs) d = firstSeen (cs ++ [d]) := by
      unfold pushUnique
      rw [firstSeen_append_single]
      by_cases hd : d ∈ cs
      · rw [if_pos ((mem_firstSeen _ _).mpr hd), if_pos hd]
      · rw [if_neg (fun h => hd ((mem_firstSeen _ _).mp h)), if_neg hd]
    rw [hpush, ih (cs ++ [d]), List.append_assoc]
    rfl

/-!
 ## Field characterizations of the two parser steps
-/

theorem stepCore_currentSection (fs : Line → Bool) (r : Option Line)
    (st : ParserState) (l : Line) :
    (stepCore fs r st l).currentSection =
      if isTitleLine st l then st.currentSection
      else if isSectionLine l then trimL (l.dropWhile (· = '#'))
      else st.currentSection := by
  unfold stepCore isTitleLine isSectionLine
  repeat' split
  all_goals dsimp only
  all_goals try simp_all
  all_goals (split <;> simp_all)

theorem stepCore_currentFiles (fs : Line → Bool) (r : Option Line)
    (st : ParserState) (l : Line) :
    (stepCore fs r st l).currentFiles =
      if isTitleLine st l then st.currentFiles
      else if isSectionLine l then []
      else (keptCandidates fs r l).foldl pushUnique st.currentFiles := by
  unfold stepCore isTitleLine isSectionLine
  repeat' split
  all_goals dsimp only
  all_goals try simp_all
  all_goals (split <;> simp_all)

theorem stepCore_sectionIndex (fs : Line → Bool) (r : Option Line)
    (st : ParserState) (l : Line) :
    (stepCore fs r st l).sectionIndex =
      if ¬isTitleLine st l ∧ isSectionLine l ∧ flushGuard st then
        st.sectionIndex + 1
      else st.sectionIndex := by
  unfold stepCore isTitleLine isSectionLine flushGuard
  repeat' split
  all_goals dsimp only
  all_goals try simp_all
  all_goals (split <;> simp_all)

theorem stepCore_maxRow (fs : Line → Bool) (r : Option Line)
    (st : ParserState) (l : Line) :
    (stepCore fs r st l).maxRow =
      if ¬isTitleLine st l ∧ isSectionLine l ∧ flushGuard st then
        max st.maxRow (st.sectionIndex / 3)
      else st.maxRow := by
  unfold stepCore isTitleLine isSectionLine flushGuard flushBump flushCurrent
  repeat' split
  all_goals dsimp only
  all_goals try simp_all
  all_goals (split <;> simp_all)

theorem stepCore_maxCol (fs : Line → Bool) (r : Option Line)
    (st : ParserState) (l : Line) :
    (stepCore fs r st l).maxCol =
      if ¬isTitleLine st l ∧ isSectionLine l ∧ flushGuard st then
        max st.maxCol (st.sectionIndex % 3)
      else st.maxCol := by
  unfold stepCore isTitleLine isSectionLine flushGuard flushBump flushCurrent
  repeat' split
  all_goals dsimp only
  all_goals try simp_all
  all_goals (split <;> simp_all)

theorem stepCore_groups (fs : Line → Bool) (r : Option Line)
    (st : ParserState) (l : Line) :
    (stepCore fs r st l).groups =
      if ¬isTitleLine st l ∧ isSectionLine l ∧ flushGuard st then
        upsert st.groups st.currentSection
          ⟨(st.sectionIndex / 3, st.sectionIndex % 3), st.currentFiles, 0⟩
      else st.groups := by
  unfold stepCore isTitleLine isSectionLine flushGuard flushBump flushCurrent
  repeat' split
  all_goals dsimp only
  all_goals try simp_all
  all_goals (split <;> simp_all)

theorem stepCoreRaw_name (fs : Line → Bool) (r : Option Line)
    (st : ParserState) (l : Line) :
    (stepCoreRaw fs r st l).name =
      if isTitleLine st l then trimL (l.drop 2) else st.name := by
  unfold stepCoreRaw isTitleLine
  repeat' split
  all_goals dsimp only
  all_goals try simp_all
  all_goals (split <;> simp_all)

theorem stepCoreRaw_description (fs : Line → Bool) (r : Option Line)
    (st : ParserState) (l : Line) :
    (stepCoreRaw fs r st l).description =
      if isTitleLine st l then st.description
      else if st.inDescription ∧ ¬l.isEmpty ∧ ¬startsWithL l (str "#") then
        (if st.description.isEmpty then l else st.description ++ ' ' :: l)
      else st.description := by
  unfold stepCoreRaw isTitleLine
  repeat' split
  all_goals dsimp only
  all_goals try simp_all
  all_goals (split <;> simp_all)

theorem stepCoreRaw_inDescription (fs : Line → Bool) (r : Option Line)
    (st : ParserState) (l : Line) :
    (stepCoreRaw fs r st l).inDescription =
      if isTitleLine st l then true
      else if st.inDescription ∧ ¬l.isEmpty ∧ ¬startsWithL l (str "#") then
        st.inDescription
      else if st.inDescription ∧ (startsWithL l (str "#") ∨ l.isEmpty) then
        false
      else st.inDescription := by
  unfold stepCoreRaw isTitleLine
  repeat' split
  all_goals dsimp only
  all_goals try simp_all
  all_goals (split <;> simp_all)

theorem stepCoreRaw_currentSection (fs : Line → Bool) (r : Option Line)
    (st : ParserState) (l : Line) :
    (stepCoreRaw fs r st l).currentSection =
      if isTitleLine st l then st.currentSection
      else if isSectionLine l then trimL (l.dropWhile (· = '#'))
      else st.currentSection := by
  unfold stepCoreRaw isTitleLine isSectionLine
  repeat' split
  all_goals dsimp only
  all_goals try simp_all
  all_goals (split <;> simp_all)

theorem stepCoreRaw_currentFiles (fs : Line → Bool) (r : Option Line)
    (st : ParserState) (l : Line) :
    (stepCoreRaw fs r st l).currentFiles =
      if isTitleLine st l then st.currentFiles
      else if isSectionLine l then []
      else st.currentFiles ++ keptCandidates fs r l := by
  unfold stepCoreRaw isTitleLine isSectionLine
  repeat' split
  all_goals dsimp only
  all_goals try simp_all
  all_goals (split <;> simp_all)

theorem stepCoreRaw_sectionIndex (fs : Line → Bool) (r : Option Line)
    (st : ParserState) (l : Line) :
    (stepCoreRaw fs r st l).sectionIndex =
      if ¬isTitleLine st l ∧ isSectionLine l ∧ flushGuard st then
        st.sectionIndex + 1
      else st.sectionIndex := by
  unfold stepCoreRaw isTitleLine isSectionLine flushGuard
  repeat' split
  all_goals dsimp only
  all_goals try simp_all
  all_goals (split <;> simp_all)

theorem stepCoreRaw_maxRow (fs : Line → Bool) (r : Option Line)
    (st : ParserState) (l : Line) :
    (stepCoreRaw fs r st l).maxRow =
      if ¬isTitleLine st l ∧ isSectionLine l ∧ flushGuard st then
        max st.maxRow (st.sectionIndex / 3)
      else st.maxRow := by
  unfold stepCoreRaw isTitleLine isSectionLine flushGuard flushBump flushCurrent
  repeat' split
  all_goals dsimp only
  all_goals try simp_all
  all_goals (split <;> simp_all)

theorem stepCoreRaw_maxCol (fs : Line → Bool) (r : Option Line)
    (st : ParserState) (l : Line) :
    (stepCoreRaw fs r st l).maxCol =
      if ¬isTitleLine st l ∧ isSectionLine l ∧ flushGuard st then
        max st.maxCol (st.sectionIndex % 3)
      else st.maxCol := by
  unfold stepCoreRaw isTitleLine isSectionLine flushGuard flushBump flushCurrent
  repeat' split
  all_goals dsimp only
  all_goals try simp_all
  all_goals (split <;> simp_all)

theorem stepCoreRaw_groups (fs : Line → Bool) (r : Option Line)
    (st : ParserState) (l : Line) :
    (stepCoreRaw fs r st l).groups =
      if ¬isTitleLine st l ∧ isSectionLine l ∧ flushGuard st then
        upsert st.groups st.currentSection
          ⟨(st.sectionIndex / 3, st.sectionIndex % 3), st.currentFiles, 0⟩
      else st.groups := by
  unfold stepCoreRaw isTitleLine isSectionLine flushGuard flushBump flushCurrent
  repeat' split
  all_goals dsimp only
  all_goals try simp_all
  all_goals (split <;> simp_all)

/-!
 ## Simulation between the two parsers
-/

theorem firstSeen_isEmpty (l : List Line) :
    (firstSeen l).isEmpty = l.isEmpty := by
  cases l with
  | nil => rw [firstSeen_nil]
  | cons c cs => rw [firstSeen]; rfl

theorem dedupGroups_length (g : List (Line × FileCell)) :
    (dedupGroups g).length = g.length := by
  simp [dedupGroups]

theorem dedupGroups_any (g : List (Line × FileCell)) (k : Line) :
    ((dedupGroups g).any fun p => p.1 = k) = (g.any fun p => p.1 = k) := by
  unfold dedupGroups
  rw [List.any_map]
  rfl

theorem dedupGroups_upsert (g : List (Line × FileCell)) (k : Line)
    (c : Nat × Nat) (files : List Line) :
    dedupGroups (upsert g k ⟨c, files, 0⟩) =
      upsert (dedupGroups g) k ⟨c, firstSeen files, 0⟩ := by
  unfold upsert
  rw [dedupGroups_any]
  split
  · unfold dedupGroups
    rw [List.map_map, List.map_map]
    apply List.map_congr_left
    intro p _
    by_cases hpk : p.1 = k <;> simp [hpk]
  · unfold dedupGroups
    rw [List.map_append]
    rfl

theorem relState_flushCurrent (st sr : ParserState) (h : relState st sr) :
    relState (flushCurrent st) (flushCurrent sr) := by
  obtain ⟨e1, e2, e3, e4, e5, e6, e7, e8, e9⟩ := h
  refine ⟨e1, e2, e3, e4, e5, e6, ?_, ?_, ?_⟩
  · rw [flushCurrent_maxRow, flushCurrent_maxRow, e7, e6]
  · rw [flushCurrent_maxCol, flushCurrent_maxCol, e8, e6]
  · rw [flushCurrent_groups, flushCurrent_groups, e9, e4, e5, e6,
      dedupGroups_upsert]

theorem stepCore_sim (fs : Line → Bool) (r : Option Line)
    (st sr : ParserState) (l : Line) (h : relState st sr) :
    relState (stepCore fs r st l) (stepCoreRaw fs r sr l) := by
  obtain ⟨e1, e2, e3, e4, e5, e6, e7, e8, e9⟩ := h
  have hT : isTitleLine st l ↔ isTitleLine sr l := by
    unfold isTitleLine
    rw [e1]
  have hG : flushGuard st ↔ flushGuard sr := by
    unfold flushGuard
    rw [e4, e5, firstSeen_isEmpty]
  have hC : (¬isTitleLine st l ∧ isSectionLine l ∧ flushGuard st) ↔
      (¬isTitleLine sr l ∧ isSectionLine l ∧ flushGuard sr) := by
    rw [hT, hG]
  refine ⟨?_, ?_, ?_, ?_, ?_, ?_, ?_, ?_, ?_⟩
  · rw [stepCore_name, stepCoreRaw_name, e1]
  · rw [stepCore_description, stepCoreRaw_description, e1, e2, e3]
  · rw [stepCore_inDescription, stepCoreRaw_inDescription, e1, e3]
  · rw [stepCore_currentSection, stepCoreRaw_currentSection]
    by_cases ht : isTitleLine sr l
    · rw [if_pos (hT.mpr ht), if_pos ht]
      exact e4
    · rw [if_neg (fun hh => ht (hT.mp hh)), if_neg ht]
      by_cases hs : isSectionLine l
      · rw [if_pos hs, if_pos hs]
      · rw [if_neg hs, if_neg hs]
        exact e4
  · rw [stepCore_currentFiles, stepCoreRaw_currentFiles]
    by_cases ht : isTitleLine sr l
    · rw [if_pos (hT.mpr ht), if_pos ht]
      exact e5
    · rw [if_neg (fun hh => ht (hT.mp hh)), if_neg ht]
      by_cases hs : isSectionLine l
      · rw [if_pos hs, if_pos hs, firstSeen_nil]
      · rw [if_neg hs, if_neg hs, e5, foldl_pushUnique]
  · rw [stepCore_sectionIndex, stepCoreRaw_sectionIndex]
    by_cases hc : ¬isTitleLine sr l ∧ isSectionLine l ∧ flushGuard sr
    · rw [if_pos (hC.mpr hc), if_pos hc, e6]
    · rw [if_neg (fun hh => hc (hC.mp hh)), if_neg hc]
      exact e6
  · rw [stepCore_maxRow, stepCoreRaw_maxRow]
    by_cases hc : ¬isTitleLine sr l ∧ isSectionLine l ∧ flushGuard sr
    · rw [if_pos (hC.mpr hc), if_pos hc, e7, e6]
    · rw [if_neg (fun hh => hc (hC.mp hh)), if_neg hc]
      exact e7
  · rw [stepCore_maxCol, stepCoreRaw_maxCol]
    by_cases hc : ¬isTitleLine sr l ∧ isSectionLine l ∧ flushGuard sr
    · rw [if_pos (hC.mpr hc), if_pos hc, e8, e6]
    · rw [if_neg (fun hh => hc (hC.mp hh)), if_neg hc]
      exact e8
  · rw [stepCore_groups, stepCoreRaw_groups]
    by_cases hc : ¬isTitleLine sr l ∧ isSectionLine l ∧ flushGuard sr
    · rw [if_pos (hC.mpr hc), if_pos hc, e9, e4, e5, e6, dedupGroups_upsert]
    · rw [if_neg (fun hh => hc (hC.mp hh)), if_neg hc]
      exact e9

theorem foldl_sim (fs : Line → Bool) (r : Option Line) :
    ∀ (ls : List Line) (st sr : ParserState), relState st sr →
      relState (ls.foldl (stepLine fs r) st)
        (ls.foldl (fun s raw => stepCoreRaw fs r s (trimL raw)) sr) := by
  intro ls
  induction ls with
  | nil => intro st sr h; exact h
  | cons l ls ih =>
    intro st sr h
    exact ih _ _ (stepCore_sim fs r st sr (trimL l) h)

theorem parseFinal_sim (fs : Line → Bool) (content : Line) (r : Option Line) :
    relState (parseFinal fs content r) (parseFinalRaw fs content r) := by
  have hpre : relState (parsePre fs content r) (parsePreRaw fs content r) :=
    foldl_sim fs r _ initState initState
      ⟨rfl, rfl, rfl, rfl, by simp [initState], rfl, rfl, rfl, rfl⟩
  have hG : flushGuard (parsePre fs content r) ↔
      flushGuard (parsePreRaw fs content r) := by
    unfold flushGuard
    rw [hpre.2.2.2.1, hpre.2.2.2.2.1, firstSeen_isEmpty]
  show relState
    (if ¬(parsePre fs content r).currentSection.isEmpty ∧
        ¬(parsePre fs content r).currentFiles.isEmpty then
      flushCurrent (parsePre fs content r) else parsePre fs content r)
    (if ¬(parsePreRaw fs content r).currentSection.isEmpty ∧
        ¬(parsePreRaw fs content r).currentFiles.isEmpty then
      flushCurrent (parsePreRaw fs content r) else parsePreRaw fs content r)
  by_cases hc : flushGuard (parsePreRaw fs content r)
  · rw [if_pos (hG.mpr hc), if_pos hc]
    exact relState_flushCurrent _ _ hpre
  · rw [if_neg (fun hh => hc (hG.mp hh)), if_neg hc]
    exact hpre

/-- C6.  The parser's per-section file lists are exactly the keep-first
deduplication of the raw candidate discovery stream: the extraction equals
the raw-accumulation extraction with `firstSeen` applied to every group's
file list (so each path appears once, at the position of its first
discovery), every emitted file list is duplicate-free, and on the concrete
duplicate-heavy document the single section's files are
`["a.ts", "b.ts", "c.ts"]`. -/
theorem extract_files_firstSeen (fs : Line → Bool) (content : Line)
    (r : Option Line) :
    (extractStructureFromMarkdown fs content r).name =
      (extractRaw fs content r).name ∧
    (extractStructureFromMarkdown fs content r).description =
      (extractRaw fs content r).description ∧
    (extractStructureFromMarkdown fs content r).rows =
      (extractRaw fs content r).rows ∧
    (extractStructureFromMarkdown fs content r).cols =
      (extractRaw fs content r).cols ∧
    (extractStructureFromMarkdown fs content r).referenceGroups =
      dedupGroups (extractRaw fs content r).referenceGroups ∧
    (∀ p ∈ (extractStructureFromMarkdown fs content r).referenceGroups,
      p.2.files.Nodup) ∧
    ((extractStructureFromMarkdown (fun _ => false) docDup
        none).referenceGroups.map fun p => p.2.files) =
      [[str "a.ts", str "b.ts", str "c.ts"]] := by
  obtain ⟨e1, e2, e3, e4, e5, e6, e7, e8, e9⟩ := parseFinal_sim fs content r
  have hlen : (parseFinal fs content r).groups.length =
      (parseFinalRaw fs content r).groups.length := by
    rw [e9, dedupGroups_length]
  refine ⟨?_, ?_, ?_, ?_, ?_, ?_, by decide⟩
  · show (if ((parseFinal fs content r).name).isEmpty then placeholderName
        else (parseFinal fs content r).name) =
      (if ((parseFinalRaw fs content r).name).isEmpty then placeholderName
        else (parseFinalRaw fs content r).name)
    rw [e1]
  · show (if ((parseFinal fs content r).description).isEmpty then
        defaultDescription else (parseFinal fs content r).description) =
      (if ((parseFinalRaw fs content r).description).isEmpty then
        defaultDescription else (parseFinalRaw fs content r).description)
    rw [e2]
  · show (if 0 < (parseFinal fs content r).groups.length then
        (parseFinal fs content r).maxRow + 1 else 1) =
      (if 0 < (parseFinalRaw fs content r).groups.length then
        (parseFinalRaw fs content r).maxRow + 1 else 1)
    rw [hlen, e7]
  · show (if 0 < (parseFinal fs content r).groups.length then
        min ((parseFinal fs content r).maxCol + 1) 3 else 1) =
      (if 0 < (parseFinalRaw fs content r).groups.length then
        min ((parseFinalRaw fs content r).maxCol + 1) 3 else 1)
    rw [hlen, e8]
  · exact e9
  · intro p hp
    have hp' : p ∈ dedupGroups (parseFinalRaw fs content r).groups := by
      rw [← e9]
      exact hp
    obtain ⟨q, _, hq⟩ := List.mem_map.mp hp'
    rw [← hq]
    exact firstSeen_nodup q.2.files

/-- C6 witness: the single group emitted for the duplicate-heavy document
is in the output, and its file list is duplicate-free. -/
theorem extract_files_firstSeen_witness :
    ((str "A",
        ({ coordinates := (0, 0),
           files := [str "a.ts", str "b.ts", str "c.ts"],
           priority := 0 } : FileCell)) ∈
      (extractStructureFromMarkdown (fun _ => false) docDup
        none).referenceGroups) ∧
    ([str "a.ts", str "b.ts", str "c.ts"] : List Line).Nodup :=
  ⟨by decide,
    (extract_files_firstSeen (fun _ => false) docDup none).2.2.2.2.2.1
      (str "A",
        { coordinates := (0, 0),
          files := [str "a.ts", str "b.ts", str "c.ts"], priority := 0 })
      (by decide)⟩

/-!
 ## Existence filtering and the §8 scenario
-/

/-- With a repository path, the kept candidates of a line are exactly the
unfiltered candidates surviving the existence check on their joined
path. -/
theorem keptCandidates_filter (fsEx : Line → Bool) (rp : Line) (line : Line) :
    keptCandidates fsEx (some rp) line =
      (keptCandidates fsEx none line).filter fun c => fsEx (pathJoin rp c) := by
  unfold keptCandidates
  generalize lineMatches line = ms
  induction ms with
  | nil => rfl
  | cons m ms ih =>
    rw [List.filterMap_cons, List.filterMap_cons]
    dsimp only
    by_cases hc : (if m.2.isEmpty then m.1 else m.2).isEmpty = true ∨
        startsWithL (if m.2.isEmpty then m.1 else m.2) (str "http") = true ∨
        startsWithL (if m.2.isEmpty then m.1 else m.2) (str "//") = true
    · rw [if_pos hc, if_pos hc]
      exact ih
    · rw [if_neg hc, if_neg hc]
      by_cases hf : fsEx (pathJoin rp (trimL (if m.2.isEmpty then m.1 else m.2)))
          = true
      · rw [if_pos hf, List.filter_cons, if_pos hf, ih]
      · rw [if_neg hf, List.filter_cons, if_neg hf, ih]

/-- C5 (§8 scenario, actual code behavior).  Existence filtering itself
acts as a filter over the unfiltered candidates; but on the §8 document
the backtick references contribute the extension capture `"ts"` as the
candidate (the extension alternation is a capturing group, so
`match[2] || match[1]` selects the extension for non-link patterns): the
unfiltered run emits Section A with files `["ts"]` — not
`["src/a.ts", "src/b.ts"]` — and the filtered run (where only
`repo/src/a.ts` exists) emits no section at all — not `["src/a.ts"]`. -/
theorem extract_sec8_behavior :
    (∀ (fsEx : Line → Bool) (rp line : Line),
      keptCandidates fsEx (some rp) line =
        (keptCandidates fsEx none line).filter fun c => fsEx (pathJoin rp c)) ∧
    (extractStructureFromMarkdown (fun _ => false) sec8doc
        none).referenceGroups =
      [(str "Section A",
        { coordinates := (0, 0), files := [str "ts"], priority := 0 })] ∧
    (extractStructureFromMarkdown (fun p => decide (p = str "repo/src/a.ts"))
      sec8doc (some (str "repo"))).referenceGroups = [] := by
  refine ⟨keptCandidates_filter, by decide, by decide⟩

/-!
 ## View-name resolution
-/

/-- C7 (amended).  When the document passes path validation, exists, is
readable and the run is a dry run, the reported view name is resolved per
`resolveNameSpec`: the caller-supplied name when provided and non-empty,
else the extracted title, with the result replaced by the path-derived
name when it equals the placeholder or is empty. -/
theorem createView_name_resolution (env : ViewEnv) (repo : Line)
    (d : UntrackedDocumentInfo) (opts : ViewCreationOptions)
    (rel content : Line)
    (h1 : env.validateRelativePath d.fullPath = Except.ok rel)
    (h2 : env.fsExists d.fullPath = true)
    (h3 : env.readFile d.fullPath = Except.ok content)
    (h4 : opts.dryRun = true) :
    (createViewFromDocument env repo d opts).viewName =
      some (resolveNameSpec opts.name
        (extractStructureFromMarkdown env.fsExists content (some repo)).name
        d.filePath) := by
  unfold createViewFromDocument
  rw [h1, h3]
  dsimp only
  rw [if_neg (by simp [h2]), if_pos h4]
  rfl

/-- C7 counterexample to the claim as stated: the caller explicitly
supplies the name `"Codebase View"`, yet the created view is named
`"Docs - My View"` (derived from the document path) — an explicitly
supplied name is not always used, because the placeholder check is applied
to the resolved name rather than only to the extracted title. -/
theorem createView_name_counterexample :
    (createViewFromDocument viewEnvName (str "R") docNamed
      { optsDry with name := some (str "Codebase View") }).viewName =
      some (str "Docs - My View") ∧
    str "Docs - My View" ≠ str "Codebase View" := by
  constructor
  · decide
  · decide

/-- C7 witness: instantiating the name-resolution theorem at the concrete
environment; with no caller-supplied name the extracted title
`"My Title"` is used. -/
theorem createView_name_resolution_witness :
    (createViewFromDocument viewEnvName (str "R") docNamed optsDry).viewName =
      some (resolveNameSpec optsDry.name
        (extractStructureFromMarkdown viewEnvName.fsExists
          (str "# My Title\nSome description.")
          (some (str "R"))).name
        docNamed.filePath) ∧
    (createViewFromDocument viewEnvName (str "R") docNamed
      optsDry).viewName = some (str "My Title") := by
  refine ⟨createView_name_resolution viewEnvName (str "R") docNamed optsDry
    (str "R/docs/my-view.md") (str "# My Title\nSome description.")
    rfl (by decide) rfl (by decide), by decide⟩

end Alexandria
